import Mathlib

/-!
Verification of the nexus calendar-feed synthesis pipeline
(`supabase/functions/user-feed/index.ts` and the most complete iteration of
the same edge function embedded in
`supabase/migrations/enable_feed_preferences_read.sql`).

Strings are modelled as `List Char`.  JavaScript `String.prototype.replace`
with a global literal pattern is modelled by `replace1` / `replace2`
(left-to-right, non-overlapping, replacement text not rescanned), which is
exactly the observable behaviour for the one- and two-character literal
patterns used by the source.

Machine dates: a JS `Date` holds an integer count of milliseconds since the
Unix epoch; we model it as `Int`.  `Date.UTC(y, mo, d, h, mi, s)` is embedded
by `jsDateUTC` (including the ECMAScript `MakeFullYear` rule mapping years
0..99 to 1900+y, and `MakeDay`'s month normalisation).  `new Date(y, mo, ...)`
(local-time construction) is embedded by `jsDateLocalNew`, parameterised by
the runtime's local zone `z : LocalZone` (a function from adjusted civil
fields to an epoch).  `new Date(string)` (host ISO parsing) is abstracted as
a parameter `p : List Char → Option Int` wherever the source applies it to
data-dependent strings; `jsDateISOParse` is a concrete executable model of
the host parser on the strict ISO shapes used in concrete evaluations.
-/

/-! ## Basic string primitives -/

/-- JS whitespace test, restricted to the ASCII whitespace characters
(all inputs analysed in the theorems below are ASCII). -/
def isJsWs (c : Char) : Bool :=
  c == ' ' || c == '\t' || c == '\n' || c == '\r' || c == '\x0b' || c == '\x0c'

/-- `String.prototype.trim`. -/
def trimJS (s : List Char) : List Char :=
  ((s.dropWhile isJsWs).reverse.dropWhile isJsWs).reverse

/-- `s.startsWith(pat)`: `pat` occurs at the start of `s`. -/
def startsWith : List Char → List Char → Bool
  | _, [] => true
  | [], _ :: _ => false
  | c :: s, p :: ps => c == p && startsWith s ps

/-- `String.prototype.includes`: `pat` occurs somewhere in `s`. -/
def strIncludes : List Char → List Char → Bool
  | [], pat => startsWith [] pat
  | c :: t, pat => startsWith (c :: t) pat || strIncludes t pat

/-- `s.replace(/p/g, repl)` for a single-character literal pattern. -/
def replace1 (p : Char) (repl : List Char) : List Char → List Char
  | [] => []
  | c :: rest =>
    if c = p then repl ++ replace1 p repl rest else c :: replace1 p repl rest

/-- `s.replace(/pq/g, repl)` for a two-character literal pattern
(left-to-right, non-overlapping). -/
def replace2 (p q : Char) (repl : List Char) : List Char → List Char
  | [] => []
  | [c] => [c]
  | c :: d :: rest =>
    if c = p ∧ d = q then repl ++ replace2 p q repl rest
    else c :: replace2 p q repl (d :: rest)

/-! ## Text escaping (`escapeICSText`, index.ts lines 63-69) and
unescaping (`unescapeICSText`, lines 174-180) -/

/-- `escapeICSText`: backslash, then `;`, then `,`, then newline, in the
source's fixed order. -/
def escapeICSText (text : List Char) : List Char :=
  replace1 '\n' ['\\', 'n']
    (replace1 ',' ['\\', ',']
      (replace1 ';' ['\\', ';']
        (replace1 '\\' ['\\', '\\'] text)))

/-- `unescapeICSText`: `\n`, then `\,`, then `\;`, then `\\`, in the
source's fixed order. -/
def unescapeICSText (text : List Char) : List Char :=
  replace2 '\\' '\\' ['\\']
    (replace2 '\\' ';' [';']
      (replace2 '\\' ',' [',']
        (replace2 '\\' 'n' ['\n'] text)))

/-- Per-character code emitted by `escapeICSText` (the four replaces
compose to this character map because each pattern is one character). -/
def encICS (c : Char) : List Char :=
  if c = '\\' then ['\\', '\\']
  else if c = ';' then ['\\', ';']
  else if c = ',' then ['\\', ',']
  else if c = '\n' then ['\\', 'n']
  else [c]

/-- State of the escaped stream after undoing the newline escapes. -/
def encICS1 (c : Char) : List Char :=
  if c = '\\' then ['\\', '\\']
  else if c = ';' then ['\\', ';']
  else if c = ',' then ['\\', ',']
  else [c]

/-- State after additionally undoing the comma escapes. -/
def encICS2 (c : Char) : List Char :=
  if c = '\\' then ['\\', '\\']
  else if c = ';' then ['\\', ';']
  else [c]

/-- State after additionally undoing the semicolon escapes. -/
def encICS3 (c : Char) : List Char :=
  if c = '\\' then ['\\', '\\'] else [c]

theorem replace1_eq_flatMap (p : Char) (r : List Char) (s : List Char) :
    replace1 p r s = s.flatMap (fun c => if c = p then r else [c]) := by
  induction s with
  | nil => rfl
  | cons c t ih =>
    simp only [replace1, List.flatMap_cons, ih]
    split <;> simp

theorem encICS_step (c : Char) :
    (((((if c = '\\' then ['\\', '\\'] else [c]).flatMap
        (fun d => if d = ';' then ['\\', ';'] else [d])).flatMap
        (fun d => if d = ',' then ['\\', ','] else [d])).flatMap
        (fun d => if d = '\n' then ['\\', 'n'] else [d]))) = encICS c := by
  by_cases h1 : c = '\\'
  · subst h1; decide
  by_cases h2 : c = ';'
  · subst h2; decide
  by_cases h3 : c = ','
  · subst h3; decide
  by_cases h4 : c = '\n'
  · subst h4; decide
  simp [encICS, h1, h2, h3, h4]

theorem escapeICSText_eq_flatMap (s : List Char) : escapeICSText s = s.flatMap encICS := by
  unfold escapeICSText
  rw [replace1_eq_flatMap, replace1_eq_flatMap, replace1_eq_flatMap, replace1_eq_flatMap]
  induction s with
  | nil => rfl
  | cons c t ih =>
    simp only [List.flatMap_cons, List.flatMap_append]
    rw [ih, encICS_step]

/-- The four characters the escaping claim quantifies over. -/
def SChar (c : Char) : Prop := c = '\\' ∨ c = ',' ∨ c = ';' ∨ c = '\n'

theorem replace2_cc (p q : Char) (repl : List Char) (c d : Char) (rest : List Char) :
    replace2 p q repl (c :: d :: rest) =
      if c = p ∧ d = q then repl ++ replace2 p q repl rest
      else c :: replace2 p q repl (d :: rest) := rfl

theorem replace2_cons_ne {p q x : Char} (repl : List Char) (hx : ¬ x = p) (F : List Char) :
    replace2 p q repl (x :: F) = x :: replace2 p q repl F := by
  cases F with
  | nil => rfl
  | cons d rest => rw [replace2_cc, if_neg (fun hh => hx hh.1)]

theorem unescape_step_n (s : List Char) :
    (∀ c ∈ s, SChar c) →
      replace2 '\\' 'n' ['\n'] (s.flatMap encICS) = s.flatMap encICS1 ∧
      replace2 '\\' 'n' ['\n'] ('\\' :: s.flatMap encICS) = '\\' :: s.flatMap encICS1 := by
  induction s with
  | nil => intro _; exact ⟨rfl, rfl⟩
  | cons c t ih =>
    intro h
    obtain ⟨ih1, ih2⟩ := ih (fun d hd => h d (List.mem_cons_of_mem c hd))
    rcases h c (List.mem_cons_self c t) with hc | hc | hc | hc <;> subst hc
    · -- c = backslash
      have e1 : replace2 '\\' 'n' ['\n'] (('\\' :: t).flatMap encICS) =
          ('\\' :: t).flatMap encICS1 := by
        simp only [List.flatMap_cons,
          show encICS '\\' = ['\\', '\\'] from by decide,
          show encICS1 '\\' = ['\\', '\\'] from by decide,
          List.cons_append, List.nil_append]
        rw [replace2_cc, if_neg (by decide), ih2]
      refine ⟨e1, ?_⟩
      simp only [List.flatMap_cons,
        show encICS '\\' = ['\\', '\\'] from by decide,
        show encICS1 '\\' = ['\\', '\\'] from by decide,
        List.cons_append, List.nil_append] at e1 ⊢
      rw [replace2_cc, if_neg (by decide), e1]
    · -- c = comma
      have e1 : replace2 '\\' 'n' ['\n'] ((',' :: t).flatMap encICS) =
          (',' :: t).flatMap encICS1 := by
        simp only [List.flatMap_cons,
          show encICS ',' = ['\\', ','] from by decide,
          show encICS1 ',' = ['\\', ','] from by decide,
          List.cons_append, List.nil_append]
        rw [replace2_cc, if_neg (by decide), replace2_cons_ne _ (by decide), ih1]
      refine ⟨e1, ?_⟩
      simp only [List.flatMap_cons,
        show encICS ',' = ['\\', ','] from by decide,
        show encICS1 ',' = ['\\', ','] from by decide,
        List.cons_append, List.nil_append] at e1 ⊢
      rw [replace2_cc, if_neg (by decide), e1]
    · -- c = semicolon
      have e1 : replace2 '\\' 'n' ['\n'] ((';' :: t).flatMap encICS) =
          (';' :: t).flatMap encICS1 := by
        simp only [List.flatMap_cons,
          show encICS ';' = ['\\', ';'] from by decide,
          show encICS1 ';' = ['\\', ';'] from by decide,
          List.cons_append, List.nil_append]
        rw [replace2_cc, if_neg (by decide), replace2_cons_ne _ (by decide), ih1]
      refine ⟨e1, ?_⟩
      simp only [List.flatMap_cons,
        show encICS ';' = ['\\', ';'] from by decide,
        show encICS1 ';' = ['\\', ';'] from by decide,
        List.cons_append, List.nil_append] at e1 ⊢
      rw [replace2_cc, if_neg (by decide), e1]
    · -- c = newline
      have e1 : replace2 '\\' 'n' ['\n'] (('\n' :: t).flatMap encICS) =
          ('\n' :: t).flatMap encICS1 := by
        simp only [List.flatMap_cons,
          show encICS '\n' = ['\\', 'n'] from by decide,
          show encICS1 '\n' = ['\n'] from by decide,
          List.cons_append, List.nil_append]
        rw [replace2_cc, if_pos (by decide), ih1]
        rfl
      refine ⟨e1, ?_⟩
      simp only [List.flatMap_cons,
        show encICS '\n' = ['\\', 'n'] from by decide,
        show encICS1 '\n' = ['\n'] from by decide,
        List.cons_append, List.nil_append] at e1 ⊢
      rw [replace2_cc, if_neg (by decide), e1]

theorem unescape_step_comma (s : List Char) :
    (∀ c ∈ s, SChar c) →
      replace2 '\\' ',' [','] (s.flatMap encICS1) = s.flatMap encICS2 ∧
      replace2 '\\' ',' [','] ('\\' :: s.flatMap encICS1) = '\\' :: s.flatMap encICS2 := by
  induction s with
  | nil => intro _; exact ⟨rfl, rfl⟩
  | cons c t ih =>
    intro h
    obtain ⟨ih1, ih2⟩ := ih (fun d hd => h d (List.mem_cons_of_mem c hd))
    rcases h c (List.mem_cons_self c t) with hc | hc | hc | hc <;> subst hc
    · -- c = backslash
      have e1 : replace2 '\\' ',' [','] (('\\' :: t).flatMap encICS1) =
          ('\\' :: t).flatMap encICS2 := by
        simp only [List.flatMap_cons,
          show encICS1 '\\' = ['\\', '\\'] from by decide,
          show encICS2 '\\' = ['\\', '\\'] from by decide,
          List.cons_append, List.nil_append]
        rw [replace2_cc, if_neg (by decide), ih2]
      refine ⟨e1, ?_⟩
      simp only [List.flatMap_cons,
        show encICS1 '\\' = ['\\', '\\'] from by decide,
        show encICS2 '\\' = ['\\', '\\'] from by decide,
        List.cons_append, List.nil_append] at e1 ⊢
      rw [replace2_cc, if_neg (by decide), e1]
    · -- c = comma
      have e1 : replace2 '\\' ',' [','] ((',' :: t).flatMap encICS1) =
          (',' :: t).flatMap encICS2 := by
        simp only [List.flatMap_cons,
          show encICS1 ',' = ['\\', ','] from by decide,
          show encICS2 ',' = [','] from by decide,
          List.cons_append, List.nil_append]
        rw [replace2_cc, if_pos (by decide), ih1]
        rfl
      refine ⟨e1, ?_⟩
      simp only [List.flatMap_cons,
        show encICS1 ',' = ['\\', ','] from by decide,
        show encICS2 ',' = [','] from by decide,
        List.cons_append, List.nil_append] at e1 ⊢
      rw [replace2_cc, if_neg (by decide), e1]
    · -- c = semicolon
      have e1 : replace2 '\\' ',' [','] ((';' :: t).flatMap encICS1) =
          (';' :: t).flatMap encICS2 := by
        simp only [List.flatMap_cons,
          show encICS1 ';' = ['\\', ';'] from by decide,
          show encICS2 ';' = ['\\', ';'] from by decide,
          List.cons_append, List.nil_append]
        rw [replace2_cc, if_neg (by decide), replace2_cons_ne _ (by decide), ih1]
      refine ⟨e1, ?_⟩
      simp only [List.flatMap_cons,
        show encICS1 ';' = ['\\', ';'] from by decide,
        show encICS2 ';' = ['\\', ';'] from by decide,
        List.cons_append, List.nil_append] at e1 ⊢
      rw [replace2_cc, if_neg (by decide), e1]
    · -- c = newline
      have e1 : replace2 '\\' ',' [','] (('\n' :: t).flatMap encICS1) =
          ('\n' :: t).flatMap encICS2 := by
        simp only [List.flatMap_cons,
          show encICS1 '\n' = ['\n'] from by decide,
          show encICS2 '\n' = ['\n'] from by decide,
          List.cons_append, List.nil_append]
        rw [replace2_cons_ne _ (by decide), ih1]
      refine ⟨e1, ?_⟩
      simp only [List.flatMap_cons,
        show encICS1 '\n' = ['\n'] from by decide,
        show encICS2 '\n' = ['\n'] from by decide,
        List.cons_append, List.nil_append] at e1 ⊢
      rw [replace2_cc, if_neg (by decide), e1]

theorem unescape_step_semi (s : List Char) :
    (∀ c ∈ s, SChar c) →
      replace2 '\\' ';' [';'] (s.flatMap encICS2) = s.flatMap encICS3 ∧
      replace2 '\\' ';' [';'] ('\\' :: s.flatMap encICS2) = '\\' :: s.flatMap encICS3 := by
  induction s with
  | nil => intro _; exact ⟨rfl, rfl⟩
  | cons c t ih =>
    intro h
    obtain ⟨ih1, ih2⟩ := ih (fun d hd => h d (List.mem_cons_of_mem c hd))
    rcases h c (List.mem_cons_self c t) with hc | hc | hc | hc <;> subst hc
    · -- c = backslash
      have e1 : replace2 '\\' ';' [';'] (('\\' :: t).flatMap encICS2) =
          ('\\' :: t).flatMap encICS3 := by
        simp only [List.flatMap_cons,
          show encICS2 '\\' = ['\\', '\\'] from by decide,
          show encICS3 '\\' = ['\\', '\\'] from by decide,
          List.cons_append, List.nil_append]
        rw [replace2_cc, if_neg (by decide), ih2]
      refine ⟨e1, ?_⟩
      simp only [List.flatMap_cons,
        show encICS2 '\\' = ['\\', '\\'] from by decide,
        show encICS3 '\\' = ['\\', '\\'] from by decide,
        List.cons_append, List.nil_append] at e1 ⊢
      rw [replace2_cc, if_neg (by decide), e1]
    · -- c = comma
      have e1 : replace2 '\\' ';' [';'] ((',' :: t).flatMap encICS2) =
          (',' :: t).flatMap encICS3 := by
        simp only [List.flatMap_cons,
          show encICS2 ',' = [','] from by decide,
          show encICS3 ',' = [','] from by decide,
          List.cons_append, List.nil_append]
        rw [replace2_cons_ne _ (by decide), ih1]
      refine ⟨e1, ?_⟩
      simp only [List.flatMap_cons,
        show encICS2 ',' = [','] from by decide,
        show encICS3 ',' = [','] from by decide,
        List.cons_append, List.nil_append] at e1 ⊢
      rw [replace2_cc, if_neg (by decide), e1]
    · -- c = semicolon
      have e1 : replace2 '\\' ';' [';'] ((';' :: t).flatMap encICS2) =
          (';' :: t).flatMap encICS3 := by
        simp only [List.flatMap_cons,
          show encICS2 ';' = ['\\', ';'] from by decide,
          show encICS3 ';' = [';'] from by decide,
          List.cons_append, List.nil_append]
        rw [replace2_cc, if_pos (by decide), ih1]
        rfl
      refine ⟨e1, ?_⟩
      simp only [List.flatMap_cons,
        show encICS2 ';' = ['\\', ';'] from by decide,
        show encICS3 ';' = [';'] from by decide,
        List.cons_append, List.nil_append] at e1 ⊢
      rw [replace2_cc, if_neg (by decide), e1]
    · -- c = newline
      have e1 : replace2 '\\' ';' [';'] (('\n' :: t).flatMap encICS2) =
          ('\n' :: t).flatMap encICS3 := by
        simp only [List.flatMap_cons,
          show encICS2 '\n' = ['\n'] from by decide,
          show encICS3 '\n' = ['\n'] from by decide,
          List.cons_append, List.nil_append]
        rw [replace2_cons_ne _ (by decide), ih1]
      refine ⟨e1, ?_⟩
      simp only [List.flatMap_cons,
        show encICS2 '\n' = ['\n'] from by decide,
        show encICS3 '\n' = ['\n'] from by decide,
        List.cons_append, List.nil_append] at e1 ⊢
      rw [replace2_cc, if_neg (by decide), e1]

theorem unescape_step_bs (s : List Char) :
    (∀ c ∈ s, SChar c) →
      replace2 '\\' '\\' ['\\'] (s.flatMap encICS3) = s := by
  induction s with
  | nil => intro _; rfl
  | cons c t ih =>
    intro h
    have ih1 := ih (fun d hd => h d (List.mem_cons_of_mem c hd))
    rcases h c (List.mem_cons_self c t) with hc | hc | hc | hc <;> subst hc
    · simp only [List.flatMap_cons,
        show encICS3 '\\' = ['\\', '\\'] from by decide,
        List.cons_append, List.nil_append]
      rw [replace2_cc, if_pos (by decide), ih1]
      rfl
    · simp only [List.flatMap_cons,
        show encICS3 ',' = [','] from by decide,
        List.cons_append, List.nil_append]
      rw [replace2_cons_ne _ (by decide), ih1]
    · simp only [List.flatMap_cons,
        show encICS3 ';' = [';'] from by decide,
        List.cons_append, List.nil_append]
      rw [replace2_cons_ne _ (by decide), ih1]
    · simp only [List.flatMap_cons,
        show encICS3 '\n' = ['\n'] from by decide,
        List.cons_append, List.nil_append]
      rw [replace2_cons_ne _ (by decide), ih1]

/-- C1: for every string made of backslashes, commas, semicolons, and
newlines in any combination, unescaping after escaping is the identity:
`unescapeICSText (escapeICSText s) = s`. -/
theorem unescapeICSText_escapeICSText (s : List Char)
    (h : ∀ c ∈ s, c = '\\' ∨ c = ',' ∨ c = ';' ∨ c = '\n') :
    unescapeICSText (escapeICSText s) = s := by
  unfold unescapeICSText
  rw [escapeICSText_eq_flatMap, (unescape_step_n s h).1, (unescape_step_comma s h).1,
    (unescape_step_semi s h).1, unescape_step_bs s h]

/-- C1 witness: the round trip evaluated on a concrete string containing all
four special characters. -/
theorem unescapeICSText_escapeICSText_witness :
    (∀ c ∈ ("\\;,\n,\\\\;;\n".toList), c = '\\' ∨ c = ',' ∨ c = ';' ∨ c = '\n') ∧
    unescapeICSText (escapeICSText ("\\;,\n,\\\\;;\n".toList)) = "\\;,\n,\\\\;;\n".toList :=
  ⟨by decide, unescapeICSText_escapeICSText _ (by decide)⟩

/-- C10: the serializer's escape function never leaves a line-feed in its
output — every newline of the input is rewritten to the two-character
sequence backslash-`n`, so an escaped `SUMMARY`/`DESCRIPTION`/`LOCATION`
value occupies a single content line. -/
theorem escapeICSText_no_newline (s : List Char) : '\n' ∉ escapeICSText s := by
  rw [escapeICSText_eq_flatMap]
  intro hmem
  rcases List.mem_flatMap.1 hmem with ⟨c, _, hm⟩
  unfold encICS at hm
  split_ifs at hm with h1 h2 h3 h4
  · exact absurd hm (by decide)
  · exact absurd hm (by decide)
  · exact absurd hm (by decide)
  · exact absurd hm (by decide)
  · exact h4 (List.mem_singleton.1 hm).symm

/-! ## Numbers and digit strings -/

/-- Little-endian decimal digits of `n`, fuel-recursive so that it reduces
inside the kernel (`fuel > n` suffices). -/
def digitsRevGo : Nat → Nat → List Char
  | 0, _ => []
  | fuel + 1, n =>
    if n < 10 then [Char.ofNat (48 + n)]
    else Char.ofNat (48 + n % 10) :: digitsRevGo fuel (n / 10)

/-- Decimal digit string of a natural number (`String(n)` for integral JS
numbers in the ranges appearing here). -/
def natToStr (n : Nat) : List Char :=
  (digitsRevGo (n + 1) n).reverse

/-- `String(i)` for an integer. -/
def intToStr (i : Int) : List Char :=
  if i < 0 then '-' :: natToStr i.natAbs else natToStr i.toNat

/-- `String.prototype.padStart(n, c)`. -/
def padStart (s : List Char) (n : Nat) (c : Char) : List Char :=
  List.replicate (n - s.length) c ++ s

/-- Numeric value of a digit list (most significant first). -/
def natOfDigits (ds : List Char) : Nat :=
  ds.foldl (fun a c => 10 * a + (c.toNat - 48)) 0

/-- Maximal leading digit run of `s`, as a number; `none` when `s` does not
start with a digit (JS `NaN`). -/
def readDigits (s : List Char) : Option Nat :=
  let ds := s.takeWhile Char.isDigit
  if ds.isEmpty then none else some (natOfDigits ds)

/-- `parseInt(s)` (radix 10): leading whitespace, optional sign, maximal
digit prefix; `none` models `NaN`. -/
def jsParseInt (s : List Char) : Option Int :=
  match s.dropWhile isJsWs with
  | [] => none
  | c :: rest =>
    if c = '-' then (readDigits rest).map (fun n => -(n : Int))
    else if c = '+' then (readDigits rest).map (fun n => (n : Int))
    else (readDigits (c :: rest)).map (fun n => (n : Int))

/-- `s.substring(a, b)` (the source only calls it with `a ≤ b`). -/
def jsSubstring (s : List Char) (a b : Nat) : List Char :=
  (s.take b).drop a

/-! ## Machine dates

`Int` values are epoch milliseconds.  `/` and `%` on `Int` in Lean are
floor division and nonnegative remainder for positive divisors, which is
exactly what the ECMAScript date operations (`Day`, `TimeWithinDay`,
`HourFromTime`, ...) specify. -/

/-- Days since 1970-01-01 of the proleptic Gregorian civil date `(y, m, d)`
with `m ∈ [1,12]` (`d` may be out of range; it contributes linearly, as in
ECMAScript `MakeDay`). -/
def daysFromCivil (y m d : Int) : Int :=
  let y2 := if m ≤ 2 then y - 1 else y
  let era := y2 / 400
  let yoe := y2 - era * 400
  let mp := (m + 9) % 12
  let doy := (153 * mp + 2) / 5 + d - 1
  let doe := yoe * 365 + yoe / 4 - yoe / 100 + doy
  era * 146097 + doe - 719468

/-- Civil date `(y, m, d)` of a day count since 1970-01-01 (inverse of
`daysFromCivil`). -/
def civilFromDays (z : Int) : Int × Int × Int :=
  let z2 := z + 719468
  let era := z2 / 146097
  let doe := z2 - era * 146097
  let yoe := (doe - doe / 1460 + doe / 36524 - doe / 146096) / 365
  let y := yoe + era * 400
  let doy := doe - (365 * yoe + yoe / 4 - yoe / 100)
  let mp := (5 * doy + 2) / 153
  let d := doy - (153 * mp + 2) / 5 + 1
  let m := mp + (if mp < 10 then 3 else -9)
  (if m ≤ 2 then y + 1 else y, m, d)

/-- ECMAScript `MakeDay(y, mo, d)` (month `mo` is 0-based and is normalised
into the year). -/
def makeDay (y mo d : Int) : Int :=
  daysFromCivil (y + mo / 12) (mo % 12 + 1) d

/-- Epoch milliseconds of UTC civil fields (`MakeDay`/`MakeTime`/`MakeDate`,
without the two-digit-year adjustment). -/
def epochFromFieldsUTC (y mo d h mi s : Int) : Int :=
  makeDay y mo d * 86400000 + (h * 3600000 + mi * 60000 + s * 1000)

/-- ECMAScript `MakeFullYear`: integer years 0..99 are read as 1900+y. -/
def adjYear (y : Int) : Int :=
  if 0 ≤ y ∧ y ≤ 99 then y + 1900 else y

/-- `Date.UTC(y, mo, d, h, mi, s)`. -/
def jsDateUTC (y mo d h mi s : Int) : Int :=
  epochFromFieldsUTC (adjYear y) mo d h mi s

/-- The runtime's local timezone, abstracted as the function taking the
(already year-adjusted) civil fields of `new Date(y, mo, d, h, mi, s)` to
the epoch instant the runtime produces for them. -/
def LocalZone : Type := Int → Int → Int → Int → Int → Int → Int

/-- `new Date(y, mo, d, h, mi, s)` under local zone `z`. -/
def jsDateLocalNew (z : LocalZone) (y mo d h mi s : Int) : Int :=
  z (adjYear y) mo d h mi s

/-- A runtime whose local timezone is UTC (e.g. a Deno edge runtime). -/
def utcServer : LocalZone := epochFromFieldsUTC

/-- `getUTCFullYear()`. -/
def getUTCFullYear (t : Int) : Int := (civilFromDays (t / 86400000)).1

/-- `getUTCMonth()` (0-based). -/
def getUTCMonth (t : Int) : Int := (civilFromDays (t / 86400000)).2.1 - 1

/-- `getUTCDate()` (day of month). -/
def getUTCDate (t : Int) : Int := (civilFromDays (t / 86400000)).2.2

/-- `getUTCHours()`. -/
def getUTCHours (t : Int) : Int := t / 3600000 % 24

/-- `getUTCMinutes()`. -/
def getUTCMinutes (t : Int) : Int := t / 60000 % 60

/-- `getUTCSeconds()`. -/
def getUTCSeconds (t : Int) : Int := t / 1000 % 60

/-- `getUTCMilliseconds()`. -/
def getUTCMilliseconds (t : Int) : Int := t % 1000

/-- `String(x).padStart(2, "0")` for the integer fields of a date. -/
def pad2int (i : Int) : List Char := padStart (intToStr i) 2 '0'

/-- `formatICSDate` (index.ts lines 40-48): compact UTC date-time
`YYYYMMDDTHHMMSSZ` (the year is not padded by the source). -/
def formatICSDate (t : Int) : List Char :=
  intToStr (getUTCFullYear t) ++ pad2int (getUTCMonth t + 1) ++ pad2int (getUTCDate t)
    ++ ['T'] ++ pad2int (getUTCHours t) ++ pad2int (getUTCMinutes t)
    ++ pad2int (getUTCSeconds t) ++ ['Z']

/-- `formatICSDateOnly` (index.ts lines 53-58): `YYYYMMDD`. -/
def formatICSDateOnly (t : Int) : List Char :=
  intToStr (getUTCFullYear t) ++ pad2int (getUTCMonth t + 1) ++ pad2int (getUTCDate t)

/-- `formatDateOnly` (index.ts lines 238-243): `YYYY-MM-DD`. -/
def formatDateOnly (t : Int) : List Char :=
  intToStr (getUTCFullYear t) ++ ['-'] ++ pad2int (getUTCMonth t + 1)
    ++ ['-'] ++ pad2int (getUTCDate t)

/-- `Date.prototype.toISOString` for years 0..9999 (the only years reachable
from the feed parser's outputs that are serialised in the theorems below);
out-of-range years use the expanded six-digit form. -/
def toISOStringJS (t : Int) : List Char :=
  let y := getUTCFullYear t
  let ystr :=
    if 0 ≤ y ∧ y ≤ 9999 then padStart (natToStr y.toNat) 4 '0'
    else (if y < 0 then ['-'] else ['+']) ++ padStart (natToStr y.natAbs) 6 '0'
  ystr ++ ['-'] ++ pad2int (getUTCMonth t + 1) ++ ['-'] ++ pad2int (getUTCDate t)
    ++ ['T'] ++ pad2int (getUTCHours t) ++ [':'] ++ pad2int (getUTCMinutes t)
    ++ [':'] ++ pad2int (getUTCSeconds t) ++ ['.']
    ++ padStart (natToStr (getUTCMilliseconds t).toNat) 3 '0' ++ ['Z']

/-- `d.setUTCHours(23, 59, 59, 999)`: same UTC day, clock forced to the end
of the day. -/
def setUTCEndOfDay (t : Int) : Int :=
  (t - t % 86400000) + (23 * 3600000 + 59 * 60000 + 59 * 1000 + 999)

/-- `s.toUpperCase()` (ASCII). -/
def upperStr (s : List Char) : List Char := s.map Char.toUpper

/-- `s.toLowerCase()` (ASCII). -/
def lowerStr (s : List Char) : List Char := s.map Char.toLower

/-! ## Specification-side civil calendar

An independent day count, written from the spec's words ("midnight UTC of
that civil date"): days are counted by summing year lengths from year 1 and
month lengths inside the year.  719162 is the day count from 0001-01-01 to
1970-01-01. -/

/-- Gregorian leap-year test. -/
def isLeapYear (y : Nat) : Bool := (y % 4 == 0 && y % 100 != 0) || y % 400 == 0

/-- Days in month `m` of year `y` (`m ∈ [1,12]`). -/
def specDaysInMonth (y m : Nat) : Nat :=
  match m with
  | 1 => 31
  | 2 => if isLeapYear y then 29 else 28
  | 3 => 31
  | 4 => 30
  | 5 => 31
  | 6 => 30
  | 7 => 31
  | 8 => 31
  | 9 => 30
  | 10 => 31
  | 11 => 30
  | 12 => 31
  | _ => 0

/-- Days of year `y` before the first of month `m`. -/
def specDaysBeforeMonth (y : Nat) : Nat → Nat
  | 0 => 0
  | 1 => 0
  | n + 1 => specDaysBeforeMonth y n + specDaysInMonth y n

/-- Days before the first of year `y`, counted from 0001-01-01. -/
def specDaysBeforeYear : Nat → Nat
  | 0 => 0
  | 1 => 0
  | n + 1 => specDaysBeforeYear n + 365 + (if isLeapYear n then 1 else 0)

/-- Days since 1970-01-01 of the civil date `(y, m, d)`, by direct counting. -/
def specDaysSinceEpoch (y m d : Nat) : Int :=
  (specDaysBeforeYear y : Int) + (specDaysBeforeMonth y m : Int) + (d : Int) - 1 - 719162

/-- Midnight UTC of the civil date `(y, m, d)`, as epoch milliseconds. -/
def specMidnightUtc (y m d : Nat) : Int := 86400000 * specDaysSinceEpoch y m d

/-- The UTC instant whose wall-clock fields are `(y, m, d, h, mi, s)`. -/
def specUtcInstant (y m d h mi s : Nat) : Int :=
  specMidnightUtc y m d + ((h * 3600 + mi * 60 + s : Nat) : Int) * 1000

/-! ## Concrete host `new Date(string)` model -/

/-- `new Date(s)` on the strict ISO shapes `YYYY-MM-DD`,
`YYYY-MM-DDTHH:MM:SSZ` and `YYYY-MM-DDTHH:MM:SS.mmmZ` (date-only is UTC
midnight; out-of-range fields are `NaN`, i.e. `none`).  This is the host
parser restricted to the shapes the source constructs; it instantiates the
abstract parse parameter in concrete evaluations. -/
def jsDateISOParse (s : List Char) : Option Int :=
  match s with
  | y1 :: y2 :: y3 :: y4 :: '-' :: m1 :: m2 :: '-' :: d1 :: d2 :: rest =>
    if y1.isDigit && y2.isDigit && y3.isDigit && y4.isDigit && m1.isDigit && m2.isDigit
        && d1.isDigit && d2.isDigit then
      let y := natOfDigits [y1, y2, y3, y4]
      let m := natOfDigits [m1, m2]
      let d := natOfDigits [d1, d2]
      if 1 ≤ m ∧ m ≤ 12 ∧ 1 ≤ d ∧ d ≤ specDaysInMonth y m then
        match rest with
        | [] => some (daysFromCivil y m d * 86400000)
        | 'T' :: h1 :: h2 :: ':' :: mi1 :: mi2 :: ':' :: s1 :: s2 :: rest2 =>
          if h1.isDigit && h2.isDigit && mi1.isDigit && mi2.isDigit && s1.isDigit
              && s2.isDigit then
            let hh := natOfDigits [h1, h2]
            let mm := natOfDigits [mi1, mi2]
            let ss := natOfDigits [s1, s2]
            if hh ≤ 23 ∧ mm ≤ 59 ∧ ss ≤ 59 then
              match rest2 with
              | ['Z'] =>
                some (daysFromCivil y m d * 86400000
                  + ((hh * 3600000 + mm * 60000 + ss * 1000 : Nat) : Int))
              | '.' :: f1 :: f2 :: f3 :: 'Z' :: [] =>
                if f1.isDigit && f2.isDigit && f3.isDigit then
                  some (daysFromCivil y m d * 86400000
                    + ((hh * 3600000 + mm * 60000 + ss * 1000
                        + natOfDigits [f1, f2, f3] : Nat) : Int))
                else none
              | _ => none
            else none
          else none
        | _ => none
      else none
    else none
  | _ => none

/-! ## `parseICSDate` (index.ts lines 186-233) -/

/-- `s.endsWith(c)` for a single character. -/
def endsWith (s : List Char) (c : Char) : Bool :=
  match s.getLast? with
  | some d => d == c
  | none => false

/-- The `|| "0"` fallback applied to the time substrings. -/
def orZeroStr (s : List Char) : List Char := if s.isEmpty then ['0'] else s

/-- `parseICSDate(dateStr)`.  The 8-digit branch builds a `Date.UTC` date;
the length-at-least-15-with-`T` branch builds either a UTC or a local-zone
date depending on a trailing `Z` or exact length 16; everything else is a
parse failure.  `z` is the runtime's local zone, used by the `new Date(y,
mo, ...)` constructor in the non-UTC case.  The `isNaN` guard corresponds
to a `none` from `jsParseInt` (in-range numeric fields here can never
overflow the JS time range). -/
def parseICSDate (z : LocalZone) (raw : List Char) : Option Int :=
  let dateStr := trimJS raw
  if dateStr.length = 8 ∧ dateStr.all Char.isDigit then
    match jsParseInt (jsSubstring dateStr 0 4), jsParseInt (jsSubstring dateStr 4 6),
        jsParseInt (jsSubstring dateStr 6 8) with
    | some year, some month, some day => some (jsDateUTC year (month - 1) day 0 0 0)
    | _, _, _ => none
  else if 15 ≤ dateStr.length ∧ dateStr.contains 'T' then
    match jsParseInt (jsSubstring dateStr 0 4), jsParseInt (jsSubstring dateStr 4 6),
        jsParseInt (jsSubstring dateStr 6 8), jsParseInt (orZeroStr (jsSubstring dateStr 9 11)),
        jsParseInt (orZeroStr (jsSubstring dateStr 11 13)),
        jsParseInt (orZeroStr (jsSubstring dateStr 13 15)) with
    | some year, some month, some day, some hours, some minutes, some seconds =>
      let isUTC := endsWith dateStr 'Z' || dateStr.length == 16
      some (if isUTC then jsDateUTC year (month - 1) day hours minutes seconds
        else jsDateLocalNew z year (month - 1) day hours minutes seconds)
    | _, _, _, _, _, _ => none
  else none

/-! ## The event model -/

/-- `CalendarEvent` (index.ts lines 10-22).  Optional string fields are
`Option (List Char)`; `null` and absent are both `none`. -/
structure CalendarEvent where
  id : List Char
  title : List Char
  description : Option (List Char) := none
  start_time : Option (List Char) := none
  end_time : Option (List Char) := none
  topic_id : List Char := []
  location : Option (List Char) := none
  recurrence_frequency : Option (List Char) := none
  recurrence_until : Option (List Char) := none
  time_tbd : Bool := false
  event_date : Option (List Char) := none
deriving DecidableEq, Repr

/-! ## Foreign feed parsing (`parseICS` block logic, index.ts lines 89-168)

Property extraction by regex (`UID`, `SUMMARY`, ..., the captured value
after the property name) is abstracted: `parseVEventBlock` receives each
capture as an `Option (List Char)` and performs exactly the downstream
per-block logic of the source, including the DTSTART date-only versus timed
branch and the retention check. -/

/-- One `VEVENT` block of `parseICS`: given the regex captures for the six
extracted properties (each `none` when the property did not match), build
the event, or `none` when the block is dropped for lack of a usable start. -/
def parseVEventBlock (z : LocalZone) (sourceName fallbackId : List Char)
    (uid summary desc loc dtstart dtend : Option (List Char)) : Option CalendarEvent :=
  let id := match uid with
    | some u => trimJS u
    | none => fallbackId
  let title := match summary with
    | some t => unescapeICSText (trimJS t)
    | none => "Event from ".toList ++ sourceName
  let description := desc.map (fun d => unescapeICSText (trimJS d))
  let location := loc.map (fun l => unescapeICSText (trimJS l))
  let sed : Option (List Char) × Option (List Char) × Bool :=
    match dtstart with
    | some dsRaw =>
      let dtstartStr := trimJS dsRaw
      match parseICSDate z dtstartStr with
      | some startDate =>
        if dtstartStr.length = 8 ∧ ¬ dtstartStr.contains 'T' then
          (none, some (formatDateOnly startDate), true)
        else (some (toISOStringJS startDate), none, false)
      | none => (none, none, false)
    | none => (none, none, false)
  let start_time := sed.1
  let event_date := sed.2.1
  let time_tbd := sed.2.2
  let end_time :=
    match dtend with
    | some deRaw =>
      match parseICSDate z (trimJS deRaw) with
      | some endD => if !time_tbd then some (toISOStringJS endD) else none
      | none => none
    | none => none
  if start_time.isSome || event_date.isSome then
    some { id := id, title := title, description := description,
           start_time := start_time, end_time := end_time,
           topic_id := "major:".toList ++ sourceName, location := location,
           time_tbd := time_tbd, event_date := event_date }
  else none

/-! ## Serialisation (`generateICS`, migration-file iteration lines 271-419) -/

/-- The `x && x.trim() !== "" ? x : null` normalisation applied to
`start_time` / `end_time` / `event_date`. -/
def normNonempty (o : Option (List Char)) : Option (List Char) :=
  match o with
  | some s => if ¬ s.isEmpty ∧ ¬ (trimJS s).isEmpty then some s else none
  | none => none

/-- The description rewriting of the serializer (lines 365-372): when the
time is TBD and neither `TBD` nor `To Be Determined` occurs in the
description (a case-sensitive `includes` check), append `[Time TBD]`. -/
def tbdDescription (isTimeTBD : Bool) (description : List Char) : List Char :=
  if isTimeTBD && !(strIncludes description ("TBD".toList))
      && !(strIncludes description ("To Be Determined".toList)) then
    (if description.isEmpty then [] else description ++ [' ']) ++ "[Time TBD]".toList
  else description

/-- The four recurrence frequencies accepted by the serializer. -/
def fourFreqs : List (List Char) :=
  ["DAILY".toList, "WEEKLY".toList, "MONTHLY".toList, "YEARLY".toList]

/-- The `/^\d{4}-\d{2}-\d{2}$/` test. -/
def regexYMD (s : List Char) : Bool :=
  match s with
  | [a, b, c, d, '-', e, f, '-', g, h] =>
    a.isDigit && b.isDigit && c.isDigit && d.isDigit && e.isDigit && f.isDigit
      && g.isDigit && h.isDigit
  | _ => false

/-- The recurrence-rule emission of the serializer (lines 378-411): text
appended after the LOCATION line (empty when nothing is emitted).  `p` is
the host `new Date(string)` parser. -/
def rruleLine (p : List Char → Option Int) (freqO untilO : Option (List Char)) : List Char :=
  match freqO, untilO with
  | some freq, some untl =>
    if freq.isEmpty || untl.isEmpty then []
    else
      let untilStr := trimJS untl
      let untilDate :=
        if regexYMD untilStr then p (untilStr ++ "T23:59:59Z".toList) else p untilStr
      match untilDate with
      | none => []
      | some ud =>
        let untilDateStr := formatICSDate (setUTCEndOfDay ud)
        let freqU := upperStr freq
        if fourFreqs.contains freqU then
          "\r\nRRULE:FREQ=".toList ++ freqU ++ ";UNTIL=".toList ++ untilDateStr
        else []
  | _, _ => []

/-- The text of one `VEVENT` block (the body of the serializer's loop after
the start/end dates are fixed). -/
def eventChunk (now : Int) (p : List Char → Option Int) (event : CalendarEvent)
    (isAllDay : Bool) (startDate endDate : Int) (isTimeTBD : Bool) : List Char :=
  "\r\nBEGIN:VEVENT".toList
    ++ "\r\nUID:".toList ++ event.id ++ "@nexus-sync".toList
    ++ "\r\nDTSTAMP:".toList ++ formatICSDate now
    ++ (if isAllDay then
          "\r\nDTSTART;VALUE=DATE:".toList ++ formatICSDateOnly startDate
            ++ "\r\nDTEND;VALUE=DATE:".toList ++ formatICSDateOnly endDate
        else
          "\r\nDTSTART:".toList ++ formatICSDate startDate
            ++ "\r\nDTEND:".toList ++ formatICSDate endDate)
    ++ "\r\nSUMMARY:".toList ++ escapeICSText event.title
    ++ (let description := tbdDescription isTimeTBD (event.description.getD []);
        if description.isEmpty then []
        else "\r\nDESCRIPTION:".toList ++ escapeICSText description)
    ++ (match event.location with
        | some l => if l.isEmpty then [] else "\r\nLOCATION:".toList ++ escapeICSText l
        | none => [])
    ++ rruleLine p event.recurrence_frequency event.recurrence_until
    ++ "\r\nEND:VEVENT".toList

/-- One iteration of the serializer's loop: `none` when the event is skipped
(`continue`), otherwise the emitted block text.  All-day `DTEND` is the next
day (`setUTCDate(getUTCDate() + 1)` adds exactly 86400000 ms, since
`MakeDay` is linear in the day argument). -/
def renderEventICS (now : Int) (p : List Char → Option Int) (event : CalendarEvent) :
    Option (List Char) :=
  let startTime := normNonempty event.start_time
  let endTime := normNonempty event.end_time
  let eventDate := normNonempty event.event_date
  if startTime.isNone ∧ eventDate.isNone then none
  else
    let isTimeTBD := event.time_tbd || startTime.isNone
    if isTimeTBD && eventDate.isSome then
      match eventDate with
      | some ed =>
        let dateStr := if ed.contains 'T' then ed.takeWhile (fun c => c ≠ 'T') else ed
        match p (dateStr ++ "T00:00:00Z".toList) with
        | none => none
        | some startDate =>
          some (eventChunk now p event true startDate (startDate + 86400000) isTimeTBD)
      | none => none
    else
      match startTime with
      | some st =>
        match p st with
        | none => none
        | some startDate =>
          let endDate :=
            match endTime with
            | some et =>
              match p et with
              | some e => e
              | none => startDate + 3600000
            | none => startDate + 3600000
          some (eventChunk now p event false startDate endDate isTimeTBD)
      | none => none

/-- `generateICS`: header, one block per retained event, footer, CRLF-joined. -/
def generateICS (now : Int) (p : List Char → Option Int)
    (events : List CalendarEvent) : List Char :=
  ("BEGIN:VCALENDAR\r\nVERSION:2.0\r\nPRODID:-//Nexus Sync//Calendar Feed//EN"
      ++ "\r\nCALSCALE:GREGORIAN\r\nMETHOD:PUBLISH").toList
    ++ (events.filterMap (renderEventICS now p)).flatten
    ++ "\r\nEND:VCALENDAR".toList

/-! ## Sorting (migration-file iteration lines 612-635) -/

/-- The `event_date` fallback of `getSortDate`. -/
def getSortDateED (p : List Char → Option Int) (event : CalendarEvent) : Option Int :=
  match event.event_date with
  | some ed =>
    if ¬ ed.isEmpty ∧ ¬ (trimJS ed).isEmpty then
      let dateStr := if ed.contains 'T' then ed.takeWhile (fun c => c ≠ 'T') else ed
      p (dateStr ++ "T00:00:00Z".toList)
    else none
  | none => none

/-- `getSortDate`: prefer a parseable nonempty `start_time`, else midnight
UTC of `event_date`, else `null`. -/
def getSortDate (p : List Char → Option Int) (event : CalendarEvent) : Option Int :=
  match event.start_time with
  | some st =>
    if ¬ st.isEmpty ∧ ¬ (trimJS st).isEmpty then p st
    else getSortDateED p event
  | none => getSortDateED p event

/-- The sort comparator: events without a sort date go last, otherwise
chronological difference. -/
def sortCmp (p : List Char → Option Int) (a b : CalendarEvent) : Int :=
  match getSortDate p a, getSortDate p b with
  | none, none => 0
  | none, some _ => 1
  | some _, none => -1
  | some x, some y => x - y

/-- The comparator's non-strict order. -/
def sortLE (p : List Char → Option Int) (a b : CalendarEvent) : Prop :=
  sortCmp p a b ≤ 0

instance sortLE.instDecidable (p : List Char → Option Int) : DecidableRel (sortLE p) :=
  fun a b => inferInstanceAs (Decidable (sortCmp p a b ≤ 0))

/-- `events.sort(comparator)`.  Since ES2019 `Array.prototype.sort` is a
stable sort consistent with the comparator, and stability plus sortedness
determine the output uniquely; it is embedded as a stable insertion sort. -/
def sortEvents (p : List Char → Option Int) (events : List CalendarEvent) :
    List CalendarEvent :=
  List.insertionSort (sortLE p) events

/-! ## C3: accepted shapes of `parseICSDate` -/

/-- C3 counterexample: the 18-character input `20240101T000000XYZ` is neither
the 8-digit shape nor a 15/16-character compact date-time, yet `parseICSDate`
accepts it (its guard only demands length at least 15 and a `T` somewhere;
the trailing `Z` even makes it parse as UTC) and returns the instant
2024-01-01T00:00:00Z instead of a parse failure. -/
theorem parseICSDate_extra_shape_accepted :
    ("20240101T000000XYZ".toList).length = 18 ∧
    parseICSDate utcServer ("20240101T000000XYZ".toList) = some 1704067200000 := by
  decide

/-- C3 amended: `parseICSDate` returns `null` exactly outside its two
guards — an input whose trimmed form is not 8 digits and is not a string of
length at least 15 containing `T` is rejected (so 15/16 characters is not
enforced: any longer string containing `T` enters the date-time branch). -/
theorem parseICSDate_rejects (z : LocalZone) (s : List Char)
    (h8 : ¬ ((trimJS s).length = 8 ∧ (trimJS s).all Char.isDigit))
    (hT : ¬ (15 ≤ (trimJS s).length ∧ (trimJS s).contains 'T')) :
    parseICSDate z s = none := by
  unfold parseICSDate
  rw [if_neg h8, if_neg hT]

/-- C3 witness: a 10-character ISO-style date is rejected. -/
theorem parseICSDate_rejects_witness :
    (¬ (((trimJS ("2024-01-01".toList)).length = 8) ∧
        (trimJS ("2024-01-01".toList)).all Char.isDigit)) ∧
    (¬ (15 ≤ (trimJS ("2024-01-01".toList)).length ∧
        (trimJS ("2024-01-01".toList)).contains 'T')) ∧
    parseICSDate utcServer ("2024-01-01".toList) = none :=
  ⟨by decide, by decide, parseICSDate_rejects utcServer _ (by decide) (by decide)⟩

/-! ## C6: the timed branch uses the runtime's local zone, not a supplied
timezone name -/

/-- C6: a 15-character date-time without `Z` is interpreted by
`new Date(y, mo, d, h, mi, s)` under the runtime's local zone `z` — the
result is `z` applied to the raw digit fields, for every `z`.  No timezone
name can even be supplied: `parseICSDate` has no such parameter, and the
`TZID=` parameter matched by the `DTSTART` regex is discarded. -/
theorem parseICSDate_local_fields (z : LocalZone) :
    parseICSDate z ("20250310T140000".toList) = some (z 2025 2 10 14 0 0) := rfl

/-! ## C4: the TBD-marker check is case-sensitive -/

/-- C4 counterexample: the description `time is tbd` contains a
case-insensitive `TBD` marker, but the serializer's case-sensitive
`includes("TBD")` misses it and appends `[Time TBD]` anyway. -/
theorem tbdDescription_case_insensitive_cex :
    strIncludes (lowerStr ("time is tbd".toList)) (lowerStr ("TBD".toList)) = true ∧
    tbdDescription true ("time is tbd".toList) = "time is tbd [Time TBD]".toList := by
  decide

/-- C4 amended: for a TBD-time event the serializer appends `[Time TBD]` to
the description unless the exact-case substring `TBD` or
`To Be Determined` is already present; the check is case-sensitive, so
markers in other letter cases do not suppress the append. -/
theorem tbdDescription_case_sensitive (desc : List Char) :
    (strIncludes desc ("TBD".toList) = false →
      strIncludes desc ("To Be Determined".toList) = false →
      tbdDescription true desc =
        (if desc.isEmpty then [] else desc ++ [' ']) ++ "[Time TBD]".toList) ∧
    (strIncludes desc ("TBD".toList) = true ∨
        strIncludes desc ("To Be Determined".toList) = true →
      tbdDescription true desc = desc) := by
  constructor
  · intro h1 h2
    unfold tbdDescription
    rw [h1, h2]
    rfl
  · intro h
    unfold tbdDescription
    have hcond : (true && !strIncludes desc ("TBD".toList)
        && !strIncludes desc ("To Be Determined".toList)) = false := by
      rcases h with h | h <;> rw [h] <;> simp
    rw [hcond]
    simp

/-- C4 witness: a marker-free description gets the marker appended. -/
theorem tbdDescription_case_sensitive_witness :
    strIncludes ("club meeting".toList) ("TBD".toList) = false ∧
    tbdDescription true ("club meeting".toList) =
      (if ("club meeting".toList).isEmpty then [] else "club meeting".toList ++ [' '])
        ++ "[Time TBD]".toList :=
  ⟨by decide, (tbdDescription_case_sensitive _).1 (by decide) (by decide)⟩

/-! ## C2: the merged sort is ordered by effective instant, missing
instants last, and stable -/

/-- The claim's order: effective instants ascending, events without an
effective instant after all events with one, ties allowed. -/
def effLE (p : List Char → Option Int) (a b : CalendarEvent) : Prop :=
  match getSortDate p a, getSortDate p b with
  | some x, some y => x ≤ y
  | some _, none => True
  | none, some _ => False
  | none, none => True

theorem sortLE_total (p : List Char → Option Int) (a b : CalendarEvent) :
    sortLE p a b ∨ sortLE p b a := by
  unfold sortLE sortCmp
  cases getSortDate p a <;> cases getSortDate p b <;> simp <;> omega

theorem sortLE_trans (p : List Char → Option Int) (a b c : CalendarEvent) :
    sortLE p a b → sortLE p b c → sortLE p a c := by
  unfold sortLE sortCmp
  cases getSortDate p a <;> cases getSortDate p b <;> cases getSortDate p c <;>
    simp <;> omega

instance sortLE.instIsTotal (p : List Char → Option Int) :
    IsTotal CalendarEvent (sortLE p) := ⟨sortLE_total p⟩

instance sortLE.instIsTrans (p : List Char → Option Int) :
    IsTrans CalendarEvent (sortLE p) := ⟨sortLE_trans p⟩

theorem sortLE_imp_effLE (p : List Char → Option Int) {a b : CalendarEvent} :
    sortLE p a b → effLE p a b := by
  unfold sortLE sortCmp effLE
  cases getSortDate p a <;> cases getSortDate p b <;> simp <;> omega

/-- Inserting an event with no sort date: it lands directly in front of the
first other no-sort-date event, so the no-sort-date subsequence gains it at
the front. -/
theorem filterNone_orderedInsert_none (p : List Char → Option Int) (a : CalendarEvent)
    (ha : getSortDate p a = none) (L : List CalendarEvent) :
    (List.orderedInsert (sortLE p) a L).filter (fun e => (getSortDate p e).isNone)
      = a :: L.filter (fun e => (getSortDate p e).isNone) := by
  induction L with
  | nil => simp [List.orderedInsert, ha]
  | cons y t ih =>
    by_cases hy : getSortDate p y = none
    · have hr : sortLE p a y := by unfold sortLE sortCmp; rw [ha, hy]
      rw [List.orderedInsert, if_pos hr]
      simp [List.filter_cons, ha, hy]
    · have hr : ¬ sortLE p a y := by
        unfold sortLE sortCmp
        rw [ha]
        cases hYv : getSortDate p y with
        | none => exact absurd hYv hy
        | some v => simp
      rw [List.orderedInsert, if_neg hr]
      have hyn : (getSortDate p y).isNone = false := by
        cases hYv : getSortDate p y with
        | none => exact absurd hYv hy
        | some v => rfl
      simp [List.filter_cons, hyn, ih]

/-- Inserting an event that has a sort date never touches the no-sort-date
subsequence. -/
theorem filterNone_orderedInsert_some (p : List Char → Option Int) (a : CalendarEvent)
    (x : Int) (ha : getSortDate p a = some x) (L : List CalendarEvent) :
    (List.orderedInsert (sortLE p) a L).filter (fun e => (getSortDate p e).isNone)
      = L.filter (fun e => (getSortDate p e).isNone) := by
  induction L with
  | nil => simp [List.orderedInsert, ha]
  | cons y t ih =>
    by_cases hr : sortLE p a y
    · rw [List.orderedInsert, if_pos hr]
      simp [List.filter_cons, ha]
    · rw [List.orderedInsert, if_neg hr]
      simp [List.filter_cons, ih]

theorem filterNone_sortEvents (p : List Char → Option Int) (l : List CalendarEvent) :
    (sortEvents p l).filter (fun e => (getSortDate p e).isNone)
      = l.filter (fun e => (getSortDate p e).isNone) := by
  induction l with
  | nil => rfl
  | cons a t ih =>
    show (List.orderedInsert (sortLE p) a (List.insertionSort (sortLE p) t)).filter _ = _
    cases ha : getSortDate p a with
    | none =>
      rw [filterNone_orderedInsert_none p a ha]
      simp [List.filter_cons, ha, ih]
      exact ih
    | some x =>
      rw [filterNone_orderedInsert_some p a x ha]
      simp [List.filter_cons, ha]
      exact ih

/-- C2: the event sort orders the merged list by effective instant
(`start_time` when present and parseable, else midnight UTC of
`event_date`) ascending, places every event without an effective instant
after all events that have one, and is stable on the events without an
effective instant (their relative input order is preserved).  `p` is the
host date parser. -/
theorem sortEvents_sorted_and_stable (p : List Char → Option Int)
    (l : List CalendarEvent) :
    List.Sorted (effLE p) (sortEvents p l) ∧
    (sortEvents p l).filter (fun e => (getSortDate p e).isNone)
      = l.filter (fun e => (getSortDate p e).isNone) := by
  constructor
  · exact (List.sorted_insertionSort (sortLE p) l).imp (fun h => sortLE_imp_effLE p h)
  · exact filterNone_sortEvents p l

/-! ## Substring lemmas for reasoning about emitted blocks -/

theorem startsWith_nil (s : List Char) : startsWith s [] = true := by
  cases s <;> rfl

theorem startsWith_append (s t pat : List Char) (h : startsWith s pat = true) :
    startsWith (s ++ t) pat = true := by
  induction pat generalizing s with
  | nil => exact startsWith_nil _
  | cons p ps ih =>
    cases s with
    | nil => exact absurd h (by simp [startsWith])
    | cons c s' =>
      simp only [startsWith, Bool.and_eq_true] at h ⊢
      exact ⟨h.1, ih s' h.2⟩

theorem strIncludes_append_of_left (s t pat : List Char)
    (h : strIncludes s pat = true) : strIncludes (s ++ t) pat = true := by
  induction s with
  | nil =>
    cases pat with
    | nil => cases t <;> simp [strIncludes, startsWith]
    | cons p ps => exact absurd h (by simp [strIncludes, startsWith])
  | cons c s' ih =>
    simp only [strIncludes, Bool.or_eq_true] at h
    rcases h with h | h
    · have := startsWith_append (c :: s') t pat h
      simp only [List.cons_append] at this ⊢
      simp [strIncludes, this]
    · simp only [List.cons_append, strIncludes, Bool.or_eq_true]
      exact Or.inr (ih h)

theorem strIncludes_append_of_right (s t pat : List Char)
    (h : strIncludes t pat = true) : strIncludes (s ++ t) pat = true := by
  induction s with
  | nil => simpa using h
  | cons c s' ih =>
    simp only [List.cons_append, strIncludes, Bool.or_eq_true]
    exact Or.inr ih

/-! ## C9: retained events always carry a usable start, and every emitted
block has a DTSTART -/

theorem eventChunk_has_DTSTART (now : Int) (p : List Char → Option Int)
    (event : CalendarEvent) (isAllDay : Bool) (startDate endDate : Int)
    (isTimeTBD : Bool) :
    strIncludes (eventChunk now p event isAllDay startDate endDate isTimeTBD)
      ("DTSTART".toList) = true := by
  unfold eventChunk
  cases isAllDay
  · rw [if_neg (by simp)]
    apply strIncludes_append_of_left
    apply strIncludes_append_of_left
    apply strIncludes_append_of_left
    apply strIncludes_append_of_left
    apply strIncludes_append_of_left
    apply strIncludes_append_of_left
    apply strIncludes_append_of_right
    apply strIncludes_append_of_left
    apply strIncludes_append_of_left
    apply strIncludes_append_of_left
    decide
  · rw [if_pos rfl]
    apply strIncludes_append_of_left
    apply strIncludes_append_of_left
    apply strIncludes_append_of_left
    apply strIncludes_append_of_left
    apply strIncludes_append_of_left
    apply strIncludes_append_of_left
    apply strIncludes_append_of_right
    apply strIncludes_append_of_left
    apply strIncludes_append_of_left
    apply strIncludes_append_of_left
    decide

theorem parseVEventBlock_inv (z : LocalZone) (src fid : List Char)
    (uid summary desc loc dtstart dtend : Option (List Char)) (e : CalendarEvent)
    (h : parseVEventBlock z src fid uid summary desc loc dtstart dtend = some e) :
    (e.start_time.isSome = true ∨ (e.time_tbd = true ∧ e.event_date.isSome = true)) ∧
      ¬ (e.start_time.isSome = true ∧ e.event_date.isSome = true) := by
  cases dtstart with
  | none => simp [parseVEventBlock] at h
  | some dsRaw =>
    cases hp : parseICSDate z (trimJS dsRaw) with
    | none => simp [parseVEventBlock, hp] at h
    | some sd =>
      by_cases hlen8 : (trimJS dsRaw).length = 8 <;> by_cases hmem : 'T' ∈ trimJS dsRaw <;>
        simp [parseVEventBlock, hp, hlen8, hmem] at h <;> subst h
      · exact ⟨Or.inl rfl, by simp⟩
      · exact ⟨Or.inr ⟨rfl, rfl⟩, by simp⟩
      · exact ⟨Or.inl rfl, by simp⟩
      · exact ⟨Or.inl rfl, by simp⟩

theorem renderEventICS_skip (now : Int) (p : List Char → Option Int) (e : CalendarEvent)
    (h1 : normNonempty e.start_time = none) (h2 : normNonempty e.event_date = none) :
    renderEventICS now p e = none := by
  simp [renderEventICS, h1, h2]

theorem renderEventICS_dtstart (now : Int) (p : List Char → Option Int)
    (e : CalendarEvent) (chunk : List Char)
    (h : renderEventICS now p e = some chunk) :
    strIncludes chunk ("DTSTART".toList) = true := by
  simp only [renderEventICS] at h
  split at h
  · exact absurd h (by simp)
  · split at h
    · split at h
      · split at h
        · exact absurd h (by simp)
        · injection h with h2
          subst h2
          exact eventChunk_has_DTSTART ..
      · exact absurd h (by simp)
    · split at h
      · split at h
        · exact absurd h (by simp)
        · injection h with h2
          subst h2
          exact eventChunk_has_DTSTART ..
      · exact absurd h (by simp)

/-- C9: (i) every event produced by the feed parser's block logic has
either a start time, or the TBD flag together with an event date — and
never both a start time and an event date; (ii) the serializer skips any
event with neither a usable start time nor a usable event date; (iii) every
block the serializer does emit contains a `DTSTART` line, so the output
document never contains a `VEVENT` without `DTSTART`. -/
theorem event_start_invariant :
    (∀ (z : LocalZone) (src fid : List Char)
        (uid summary desc loc dtstart dtend : Option (List Char)) (e : CalendarEvent),
      parseVEventBlock z src fid uid summary desc loc dtstart dtend = some e →
        (e.start_time.isSome = true ∨ (e.time_tbd = true ∧ e.event_date.isSome = true)) ∧
          ¬ (e.start_time.isSome = true ∧ e.event_date.isSome = true)) ∧
    (∀ (now : Int) (p : List Char → Option Int) (e : CalendarEvent),
      normNonempty e.start_time = none → normNonempty e.event_date = none →
        renderEventICS now p e = none) ∧
    (∀ (now : Int) (p : List Char → Option Int) (e : CalendarEvent) (chunk : List Char),
      renderEventICS now p e = some chunk →
        strIncludes chunk ("DTSTART".toList) = true) :=
  ⟨fun z src fid uid summary desc loc dtstart dtend e h =>
      parseVEventBlock_inv z src fid uid summary desc loc dtstart dtend e h,
    fun now p e h1 h2 => renderEventICS_skip now p e h1 h2,
    fun now p e chunk h => renderEventICS_dtstart now p e chunk h⟩

/-- The event produced by the parser's block logic for a date-only DTSTART
`20250310` from source `CS` (used by the C9 witness). -/
def evC9 : CalendarEvent :=
  { id := "fid".toList, title := "Event from CS".toList,
    topic_id := "major:CS".toList, time_tbd := true,
    event_date := some ("2025-03-10".toList) }

/-- C9 witness: the invariant instantiated on a concrete parsed block. -/
theorem event_start_invariant_witness :
    parseVEventBlock utcServer ("CS".toList) ("fid".toList)
        none none none none (some ("20250310".toList)) none = some evC9 ∧
    ((evC9.start_time.isSome = true ∨
        (evC9.time_tbd = true ∧ evC9.event_date.isSome = true)) ∧
      ¬ (evC9.start_time.isSome = true ∧ evC9.event_date.isSome = true)) :=
  ⟨by decide,
    event_start_invariant.1 utcServer ("CS".toList) ("fid".toList)
      none none none none (some ("20250310".toList)) none evC9 (by decide)⟩

/-! ## Character sets of formatted dates -/

theorem charOfNat_digit_isDigit (r : Nat) (hr : r < 10) :
    (Char.ofNat (48 + r)).isDigit = true := by
  interval_cases r <;> decide

theorem digitsRevGo_digits (f : Nat) :
    ∀ (n : Nat), ∀ c ∈ digitsRevGo f n, c.isDigit = true := by
  induction f with
  | zero => intro n c hc; simp [digitsRevGo] at hc
  | succ f ih =>
    intro n c hc
    unfold digitsRevGo at hc
    by_cases hn : n < 10
    · rw [if_pos hn] at hc
      rw [List.mem_singleton.1 hc]
      exact charOfNat_digit_isDigit n hn
    · rw [if_neg hn] at hc
      rcases List.mem_cons.1 hc with hc | hc
      · rw [hc]
        exact charOfNat_digit_isDigit _ (Nat.mod_lt _ (by omega))
      · exact ih _ c hc

theorem natToStr_digits (n : Nat) : ∀ c ∈ natToStr n, c.isDigit = true := by
  intro c hc
  unfold natToStr at hc
  exact digitsRevGo_digits _ _ c (List.mem_reverse.1 hc)

theorem intToStr_chars (i : Int) : ∀ c ∈ intToStr i, c.isDigit = true ∨ c = '-' := by
  intro c hc
  unfold intToStr at hc
  split at hc
  · rcases List.mem_cons.1 hc with hc | hc
    · exact Or.inr hc
    · exact Or.inl (natToStr_digits _ c hc)
  · exact Or.inl (natToStr_digits _ c hc)

theorem pad2int_chars (i : Int) : ∀ c ∈ pad2int i, c.isDigit = true ∨ c = '-' := by
  intro c hc
  unfold pad2int padStart at hc
  rcases List.mem_append.1 hc with hc | hc
  · rw [List.eq_of_mem_replicate hc]
    exact Or.inl (by decide)
  · exact intToStr_chars i c hc

theorem formatICSDate_chars (t : Int) :
    ∀ c ∈ formatICSDate t, c.isDigit = true ∨ c = 'T' ∨ c = 'Z' ∨ c = '-' := by
  intro c hc
  unfold formatICSDate at hc
  simp only [List.append_assoc, List.mem_append, List.mem_singleton] at hc
  have hpad : ∀ i : Int, c ∈ pad2int i → c.isDigit = true ∨ c = 'T' ∨ c = 'Z' ∨ c = '-' := by
    intro i hci
    rcases pad2int_chars i c hci with hd | hd
    · exact Or.inl hd
    · exact Or.inr (Or.inr (Or.inr hd))
  rcases hc with hc | hc | hc | hc | hc | hc | hc | hc
  · rcases intToStr_chars _ c hc with hd | hd
    · exact Or.inl hd
    · exact Or.inr (Or.inr (Or.inr hd))
  · exact hpad _ hc
  · exact hpad _ hc
  · exact Or.inr (Or.inl hc)
  · exact hpad _ hc
  · exact hpad _ hc
  · exact hpad _ hc
  · exact Or.inr (Or.inr (Or.inl hc))

theorem mem_of_strIncludes_head (s : List Char) (c : Char) (rest : List Char)
    (h : strIncludes s (c :: rest) = true) : c ∈ s := by
  induction s with
  | nil => simp [strIncludes, startsWith] at h
  | cons d t ih =>
    simp only [strIncludes, Bool.or_eq_true] at h
    rcases h with h | h
    · have hd : (d == c) = true := by
        simp only [startsWith, Bool.and_eq_true] at h
        exact h.1
      rw [← eq_of_beq hd]
      exact List.mem_cons_self d t
    · exact List.mem_cons_of_mem _ (ih h)

/-! ## C5: recurrence emission has FREQ and UNTIL but never BYDAY -/

/-- C5 counterexample: a weekly recurrence is emitted as
`RRULE:FREQ=WEEKLY;UNTIL=...` with no `BYDAY` value at all (the claim's
weekly `BYDAY` derived from the start weekday does not exist in the code). -/
theorem rruleLine_weekly_no_byday :
    rruleLine jsDateISOParse (some ("WEEKLY".toList)) (some ("2025-12-31".toList))
      = "\r\nRRULE:FREQ=WEEKLY;UNTIL=20251231T235959Z".toList ∧
    strIncludes
      (rruleLine jsDateISOParse (some ("WEEKLY".toList)) (some ("2025-12-31".toList)))
      ("BYDAY".toList) = false := by
  decide

/-- C5 amended: for every event whose recurrence until-string is a
`YYYY-MM-DD` date the host parser accepts and whose frequency uppercases to
one of DAILY/WEEKLY/MONTHLY/YEARLY, the serializer emits exactly
`RRULE:FREQ=<freq>;UNTIL=<end of that day>` — and the emitted text never
contains `BYDAY`, weekly frequencies included. -/
theorem rruleLine_freq_until (p : List Char → Option Int) (freq untl : List Char)
    (t : Int) (hfreq : upperStr freq ∈ fourFreqs)
    (hymd : regexYMD (trimJS untl) = true)
    (hp : p (trimJS untl ++ "T23:59:59Z".toList) = some t) :
    rruleLine p (some freq) (some untl) =
      "\r\nRRULE:FREQ=".toList ++ upperStr freq ++ ";UNTIL=".toList
        ++ formatICSDate (setUTCEndOfDay t) ∧
    strIncludes (rruleLine p (some freq) (some untl)) ("BYDAY".toList) = false := by
  have hfne : freq.isEmpty = false := by
    cases freq with
    | nil => simp [upperStr, fourFreqs] at hfreq
    | cons _ _ => rfl
  have hune : untl.isEmpty = false := by
    cases untl with
    | nil => exact absurd hymd (by decide)
    | cons _ _ => rfl
  have hcont : fourFreqs.contains (upperStr freq) = true := by
    exact List.elem_iff.mpr hfreq
  have e1 : rruleLine p (some freq) (some untl) =
      "\r\nRRULE:FREQ=".toList ++ upperStr freq ++ ";UNTIL=".toList
        ++ formatICSDate (setUTCEndOfDay t) := by
    simp only [rruleLine, hfne, hune, hymd, hp, hcont, Bool.or_self, Bool.false_or,
      if_false, if_true, ite_true, ite_false]
    simp
  refine ⟨e1, ?_⟩
  rw [e1]
  refine Bool.eq_false_iff.mpr ?_
  intro hb
  have hBmem := mem_of_strIncludes_head _ _ _ hb
  simp only [List.append_assoc, List.mem_append] at hBmem
  rcases hBmem with hc | hc | hc | hc
  · exact absurd hc (by decide)
  · simp only [fourFreqs, List.mem_cons, List.not_mem_nil, or_false] at hfreq
    rcases hfreq with h | h | h | h <;> rw [h] at hc <;> exact absurd hc (by decide)
  · exact absurd hc (by decide)
  · rcases formatICSDate_chars _ _ hc with hd | hd | hd | hd
    · exact absurd hd (by decide)
    · exact absurd hd (by decide)
    · exact absurd hd (by decide)
    · exact absurd hd (by decide)

/-- C5 witness: a lowercase daily frequency with a date-only until. -/
theorem rruleLine_freq_until_witness :
    upperStr ("daily".toList) ∈ fourFreqs ∧
    regexYMD (trimJS ("2026-06-30".toList)) = true ∧
    jsDateISOParse (trimJS ("2026-06-30".toList) ++ "T23:59:59Z".toList)
      = some 1782863999000 ∧
    rruleLine jsDateISOParse (some ("daily".toList)) (some ("2026-06-30".toList)) =
      "\r\nRRULE:FREQ=".toList ++ upperStr ("daily".toList) ++ ";UNTIL=".toList
        ++ formatICSDate (setUTCEndOfDay 1782863999000) :=
  ⟨by decide, by decide, by decide,
    (rruleLine_freq_until jsDateISOParse ("daily".toList) ("2026-06-30".toList)
      1782863999000 (by decide) (by decide) (by decide)).1⟩

/-! ## Correctness of digit strings and `parseInt` on them -/

/-- Little-endian value of a digit list (used to relate `natOfDigits` on a
reversed list to `digitsRevGo`). -/
def valLE (ds : List Char) : Nat :=
  ds.foldr (fun c a => 10 * a + (c.toNat - 48)) 0

theorem charOfNat_digit_toNat (r : Nat) (hr : r < 10) :
    (Char.ofNat (48 + r)).toNat = 48 + r := by
  interval_cases r <;> decide

theorem valLE_digitsRevGo (f : Nat) : ∀ n, n < f → valLE (digitsRevGo f n) = n := by
  induction f with
  | zero => intro n h; omega
  | succ f ih =>
    intro n h
    unfold digitsRevGo
    by_cases hn : n < 10
    · rw [if_pos hn]
      simp only [valLE, List.foldr_cons, List.foldr_nil]
      rw [charOfNat_digit_toNat n hn]
      omega
    · rw [if_neg hn]
      simp only [valLE, List.foldr_cons]
      have h1 : n / 10 < n := Nat.div_lt_self (by omega) (by omega)
      have h2 : n / 10 < f := by omega
      have h3 := ih (n / 10) h2
      simp only [valLE] at h3
      rw [h3, charOfNat_digit_toNat (n % 10) (Nat.mod_lt _ (by omega))]
      omega

theorem natOfDigits_natToStr (n : Nat) : natOfDigits (natToStr n) = n := by
  unfold natToStr natOfDigits
  rw [List.foldl_reverse]
  exact valLE_digitsRevGo (n + 1) n (by omega)

theorem natOfDigits_cons (c : Char) (t : List Char) :
    natOfDigits (c :: t) = t.foldl (fun a d => 10 * a + (d.toNat - 48)) (c.toNat - 48) := by
  simp [natOfDigits, List.foldl_cons]

theorem natOfDigits_zeros_append (k : Nat) (ds : List Char) :
    natOfDigits (List.replicate k '0' ++ ds) = natOfDigits ds := by
  induction k with
  | zero => simp
  | succ k ih =>
    simp only [List.replicate_succ, List.cons_append]
    show (List.replicate k '0' ++ ds).foldl _ ((10 * 0 + (('0'.toNat) - 48))) = _
    simpa [natOfDigits] using ih

theorem digitsRevGo_ne_nil (f n : Nat) (h : n < f) : digitsRevGo f n ≠ [] := by
  cases f with
  | zero => omega
  | succ f =>
    unfold digitsRevGo
    by_cases hn : n < 10 <;> simp [hn]

theorem natToStr_ne_nil (n : Nat) : natToStr n ≠ [] := by
  unfold natToStr
  simpa using digitsRevGo_ne_nil (n + 1) n (by omega)

theorem digitsRevGo_length_le (f : Nat) :
    ∀ n k, n < f → n < 10 ^ k → 1 ≤ k → (digitsRevGo f n).length ≤ k := by
  induction f with
  | zero => intro n k h; omega
  | succ f ih =>
    intro n k h hk hk1
    unfold digitsRevGo
    by_cases hn : n < 10
    · rw [if_pos hn]
      simpa using hk1
    · rw [if_neg hn]
      have hk2 : 2 ≤ k := by
        by_contra hcon
        have : k = 1 := by omega
        subst this
        simp at hk
        omega
      have hdiv : n / 10 < 10 ^ (k - 1) := by
        apply Nat.div_lt_of_lt_mul
        have hpow : 10 ^ k = 10 ^ (k - 1) * 10 := by
          conv_lhs => rw [show k = (k - 1) + 1 from by omega, pow_succ]
        omega
      have h1 : n / 10 < n := Nat.div_lt_self (by omega) (by omega)
      have := ih (n / 10) (k - 1) (by omega) hdiv (by omega)
      simp only [List.length_cons]
      omega

theorem natToStr_length_le (n k : Nat) (hk : 1 ≤ k) (h : n < 10 ^ k) :
    (natToStr n).length ≤ k := by
  unfold natToStr
  rw [List.length_reverse]
  exact digitsRevGo_length_le (n + 1) n k (by omega) h hk

theorem padStart_length (s : List Char) (n : Nat) (c : Char) (h : s.length ≤ n) :
    (padStart s n c).length = n := by
  simp [padStart]
  omega

theorem digit_not_ws (c : Char) (h : c.isDigit = true) : isJsWs c = false := by
  cases hw : isJsWs c
  · rfl
  · exfalso
    have h5 : c = ' ' ∨ c = '\t' ∨ c = '\n' ∨ c = '\x0d' ∨ c = '\x0b' ∨ c = '\x0c' := by
      simpa [isJsWs, or_assoc] using hw
    rcases h5 with h1 | h1 | h1 | h1 | h1 | h1 <;> rw [h1] at h <;> exact absurd h (by decide)

theorem takeWhile_all {α : Type} (P : α → Bool) (s : List α) (h : ∀ c ∈ s, P c = true) :
    s.takeWhile P = s :=
  List.takeWhile_eq_self_iff.mpr h

theorem dropWhile_ws_digits (s : List Char) (hd : ∀ c ∈ s, c.isDigit = true) :
    s.dropWhile isJsWs = s := by
  cases s with
  | nil => rfl
  | cons c t =>
    rw [List.dropWhile_cons, if_neg]
    rw [digit_not_ws c (hd c (List.mem_cons_self c t))]
    simp

theorem jsParseInt_digits (s : List Char) (hne : s ≠ [])
    (hd : ∀ c ∈ s, c.isDigit = true) :
    jsParseInt s = some ((natOfDigits s : Nat) : Int) := by
  cases s with
  | nil => exact absurd rfl hne
  | cons c t =>
    have hcd : c.isDigit = true := hd c (List.mem_cons_self c t)
    have hred : jsParseInt (c :: t) =
        (if c = '-' then (readDigits t).map (fun n => -(n : Int))
         else if c = '+' then (readDigits t).map (fun n => (n : Int))
         else (readDigits (c :: t)).map (fun n => (n : Int))) := by
      unfold jsParseInt
      rw [dropWhile_ws_digits _ hd]
    rw [hred, if_neg, if_neg]
    · unfold readDigits
      rw [takeWhile_all Char.isDigit (c :: t) hd]
      simp [List.isEmpty]
    · intro hcon; rw [hcon] at hcd; exact absurd hcd (by decide)
    · intro hcon; rw [hcon] at hcd; exact absurd hcd (by decide)

theorem padStart_zero_digits (s : List Char) (n : Nat) (h : ∀ c ∈ s, c.isDigit = true) :
    ∀ c ∈ padStart s n '0', c.isDigit = true := by
  intro c hc
  rcases List.mem_append.1 hc with hc | hc
  · rw [List.eq_of_mem_replicate hc]; decide
  · exact h c hc

theorem natOfDigits_padStart (s : List Char) (n : Nat) :
    natOfDigits (padStart s n '0') = natOfDigits s := by
  unfold padStart
  exact natOfDigits_zeros_append _ _

theorem jsParseInt_padStart_natToStr (v n : Nat) :
    jsParseInt (padStart (natToStr v) n '0') = some ((v : Nat) : Int) := by
  rw [jsParseInt_digits]
  · rw [natOfDigits_padStart, natOfDigits_natToStr]
  · unfold padStart
    intro hcon
    have := natToStr_ne_nil v
    rcases List.append_eq_nil.1 hcon with ⟨-, h2⟩
    exact this h2
  · exact padStart_zero_digits _ _ (natToStr_digits v)

/-! ## The machine day count agrees with the spec-side civil calendar -/

theorem isLeapYear_iff (y : Nat) :
    isLeapYear y = true ↔ ((y % 4 = 0 ∧ ¬ y % 100 = 0) ∨ y % 400 = 0) := by
  simp [isLeapYear, Bool.or_eq_true, Bool.and_eq_true, beq_iff_eq, bne_iff_ne]

theorem specDaysBeforeYear_succ (y : Nat) (hy : 1 ≤ y) :
    specDaysBeforeYear (y + 1) =
      specDaysBeforeYear y + 365 + (if isLeapYear y then 1 else 0) := by
  match y, hy with
  | n + 1, _ => rfl

theorem specDaysBeforeYear_closed (y : Nat) (hy : 1 ≤ y) :
    specDaysBeforeYear y + (y - 1) / 100 =
      365 * (y - 1) + (y - 1) / 4 + (y - 1) / 400 := by
  induction y with
  | zero => omega
  | succ n ih =>
    rcases Nat.lt_or_ge n 1 with hn | hn
    · interval_cases n
      simp [specDaysBeforeYear]
    · have hstep := specDaysBeforeYear_succ n hn
      have hih := ih hn
      rw [hstep]
      rcases hL : isLeapYear n with hF | hT
      · have hfacts : ¬ (((n % 4 = 0 ∧ ¬ n % 100 = 0) ∨ n % 400 = 0)) := by
          rw [← isLeapYear_iff]
          simp [hL]
        simp only [if_false, Bool.false_eq_true]
        omega
      · have hfacts : ((n % 4 = 0 ∧ ¬ n % 100 = 0) ∨ n % 400 = 0) :=
          (isLeapYear_iff n).1 hL
        simp only [if_true]
        omega

theorem daysFromCivil_eq_spec (y m : Nat) (d : Int) (hy : 1 ≤ y)
    (hm : 1 ≤ m) (hm12 : m ≤ 12) :
    daysFromCivil (y : Int) (m : Int) d =
      (specDaysBeforeYear y : Int) + (specDaysBeforeMonth y m : Int) + d - 1 - 719162 := by
  have hcl := specDaysBeforeYear_closed y hy
  interval_cases m
  · have hbm : specDaysBeforeMonth y 1 = 0 := rfl
    by_cases hLP : ((y % 4 = 0 ∧ ¬ y % 100 = 0) ∨ y % 400 = 0)
    · have hLb : isLeapYear y = true := (isLeapYear_iff y).2 hLP
      simp only [daysFromCivil, specDaysSinceEpoch, hbm, hLb]
      norm_num
      push_cast
      omega
    · have hLb : isLeapYear y = false := by
        cases hLL : isLeapYear y
        · rfl
        · exact absurd ((isLeapYear_iff y).1 hLL) hLP
      simp only [daysFromCivil, specDaysSinceEpoch, hbm, hLb]
      norm_num
      push_cast
      omega
  · have hbm : specDaysBeforeMonth y 2 = 31 := rfl
    by_cases hLP : ((y % 4 = 0 ∧ ¬ y % 100 = 0) ∨ y % 400 = 0)
    · have hLb : isLeapYear y = true := (isLeapYear_iff y).2 hLP
      simp only [daysFromCivil, specDaysSinceEpoch, hbm, hLb]
      norm_num
      push_cast
      omega
    · have hLb : isLeapYear y = false := by
        cases hLL : isLeapYear y
        · rfl
        · exact absurd ((isLeapYear_iff y).1 hLL) hLP
      simp only [daysFromCivil, specDaysSinceEpoch, hbm, hLb]
      norm_num
      push_cast
      omega
  · have hbm : specDaysBeforeMonth y 3 = 31 + (if isLeapYear y then 29 else 28) := rfl
    by_cases hLP : ((y % 4 = 0 ∧ ¬ y % 100 = 0) ∨ y % 400 = 0)
    · have hLb : isLeapYear y = true := (isLeapYear_iff y).2 hLP
      simp only [daysFromCivil, specDaysSinceEpoch, hbm, hLb]
      norm_num
      push_cast
      omega
    · have hLb : isLeapYear y = false := by
        cases hLL : isLeapYear y
        · rfl
        · exact absurd ((isLeapYear_iff y).1 hLL) hLP
      simp only [daysFromCivil, specDaysSinceEpoch, hbm, hLb]
      norm_num
      push_cast
      omega
  · have hbm : specDaysBeforeMonth y 4 = 31 + (if isLeapYear y then 29 else 28) + 31 := rfl
    by_cases hLP : ((y % 4 = 0 ∧ ¬ y % 100 = 0) ∨ y % 400 = 0)
    · have hLb : isLeapYear y = true := (isLeapYear_iff y).2 hLP
      simp only [daysFromCivil, specDaysSinceEpoch, hbm, hLb]
      norm_num
      push_cast
      omega
    · have hLb : isLeapYear y = false := by
        cases hLL : isLeapYear y
        · rfl
        · exact absurd ((isLeapYear_iff y).1 hLL) hLP
      simp only [daysFromCivil, specDaysSinceEpoch, hbm, hLb]
      norm_num
      push_cast
      omega
  · have hbm : specDaysBeforeMonth y 5 = 31 + (if isLeapYear y then 29 else 28) + 31 + 30 := rfl
    by_cases hLP : ((y % 4 = 0 ∧ ¬ y % 100 = 0) ∨ y % 400 = 0)
    · have hLb : isLeapYear y = true := (isLeapYear_iff y).2 hLP
      simp only [daysFromCivil, specDaysSinceEpoch, hbm, hLb]
      norm_num
      push_cast
      omega
    · have hLb : isLeapYear y = false := by
        cases hLL : isLeapYear y
        · rfl
        · exact absurd ((isLeapYear_iff y).1 hLL) hLP
      simp only [daysFromCivil, specDaysSinceEpoch, hbm, hLb]
      norm_num
      push_cast
      omega
  · have hbm : specDaysBeforeMonth y 6 = 31 + (if isLeapYear y then 29 else 28) + 31 + 30 + 31 := rfl
    by_cases hLP : ((y % 4 = 0 ∧ ¬ y % 100 = 0) ∨ y % 400 = 0)
    · have hLb : isLeapYear y = true := (isLeapYear_iff y).2 hLP
      simp only [daysFromCivil, specDaysSinceEpoch, hbm, hLb]
      norm_num
      push_cast
      omega
    · have hLb : isLeapYear y = false := by
        cases hLL : isLeapYear y
        · rfl
        · exact absurd ((isLeapYear_iff y).1 hLL) hLP
      simp only [daysFromCivil, specDaysSinceEpoch, hbm, hLb]
      norm_num
      push_cast
      omega
  · have hbm : specDaysBeforeMonth y 7 = 31 + (if isLeapYear y then 29 else 28) + 31 + 30 + 31 + 30 := rfl
    by_cases hLP : ((y % 4 = 0 ∧ ¬ y % 100 = 0) ∨ y % 400 = 0)
    · have hLb : isLeapYear y = true := (isLeapYear_iff y).2 hLP
      simp only [daysFromCivil, specDaysSinceEpoch, hbm, hLb]
      norm_num
      push_cast
      omega
    · have hLb : isLeapYear y = false := by
        cases hLL : isLeapYear y
        · rfl
        · exact absurd ((isLeapYear_iff y).1 hLL) hLP
      simp only [daysFromCivil, specDaysSinceEpoch, hbm, hLb]
      norm_num
      push_cast
      omega
  · have hbm : specDaysBeforeMonth y 8 = 31 + (if isLeapYear y then 29 else 28) + 31 + 30 + 31 + 30 + 31 := rfl
    by_cases hLP : ((y % 4 = 0 ∧ ¬ y % 100 = 0) ∨ y % 400 = 0)
    · have hLb : isLeapYear y = true := (isLeapYear_iff y).2 hLP
      simp only [daysFromCivil, specDaysSinceEpoch, hbm, hLb]
      norm_num
      push_cast
      omega
    · have hLb : isLeapYear y = false := by
        cases hLL : isLeapYear y
        · rfl
        · exact absurd ((isLeapYear_iff y).1 hLL) hLP
      simp only [daysFromCivil, specDaysSinceEpoch, hbm, hLb]
      norm_num
      push_cast
      omega
  · have hbm : specDaysBeforeMonth y 9 = 31 + (if isLeapYear y then 29 else 28) + 31 + 30 + 31 + 30 + 31 + 31 := rfl
    by_cases hLP : ((y % 4 = 0 ∧ ¬ y % 100 = 0) ∨ y % 400 = 0)
    · have hLb : isLeapYear y = true := (isLeapYear_iff y).2 hLP
      simp only [daysFromCivil, specDaysSinceEpoch, hbm, hLb]
      norm_num
      push_cast
      omega
    · have hLb : isLeapYear y = false := by
        cases hLL : isLeapYear y
        · rfl
        · exact absurd ((isLeapYear_iff y).1 hLL) hLP
      simp only [daysFromCivil, specDaysSinceEpoch, hbm, hLb]
      norm_num
      push_cast
      omega
  · have hbm : specDaysBeforeMonth y 10 = 31 + (if isLeapYear y then 29 else 28) + 31 + 30 + 31 + 30 + 31 + 31 + 30 := rfl
    by_cases hLP : ((y % 4 = 0 ∧ ¬ y % 100 = 0) ∨ y % 400 = 0)
    · have hLb : isLeapYear y = true := (isLeapYear_iff y).2 hLP
      simp only [daysFromCivil, specDaysSinceEpoch, hbm, hLb]
      norm_num
      push_cast
      omega
    · have hLb : isLeapYear y = false := by
        cases hLL : isLeapYear y
        · rfl
        · exact absurd ((isLeapYear_iff y).1 hLL) hLP
      simp only [daysFromCivil, specDaysSinceEpoch, hbm, hLb]
      norm_num
      push_cast
      omega
  · have hbm : specDaysBeforeMonth y 11 = 31 + (if isLeapYear y then 29 else 28) + 31 + 30 + 31 + 30 + 31 + 31 + 30 + 31 := rfl
    by_cases hLP : ((y % 4 = 0 ∧ ¬ y % 100 = 0) ∨ y % 400 = 0)
    · have hLb : isLeapYear y = true := (isLeapYear_iff y).2 hLP
      simp only [daysFromCivil, specDaysSinceEpoch, hbm, hLb]
      norm_num
      push_cast
      omega
    · have hLb : isLeapYear y = false := by
        cases hLL : isLeapYear y
        · rfl
        · exact absurd ((isLeapYear_iff y).1 hLL) hLP
      simp only [daysFromCivil, specDaysSinceEpoch, hbm, hLb]
      norm_num
      push_cast
      omega
  · have hbm : specDaysBeforeMonth y 12 = 31 + (if isLeapYear y then 29 else 28) + 31 + 30 + 31 + 30 + 31 + 31 + 30 + 31 + 30 := rfl
    by_cases hLP : ((y % 4 = 0 ∧ ¬ y % 100 = 0) ∨ y % 400 = 0)
    · have hLb : isLeapYear y = true := (isLeapYear_iff y).2 hLP
      simp only [daysFromCivil, specDaysSinceEpoch, hbm, hLb]
      norm_num
      push_cast
      omega
    · have hLb : isLeapYear y = false := by
        cases hLL : isLeapYear y
        · rfl
        · exact absurd ((isLeapYear_iff y).1 hLL) hLP
      simp only [daysFromCivil, specDaysSinceEpoch, hbm, hLb]
      norm_num
      push_cast
      omega

/-! ## C7 and C8: parsing well-formed compact dates -/

/-- The 8-digit encoding `YYYYMMDD` of a civil date. -/
def encodeICSDateOnly (y m d : Nat) : List Char :=
  padStart (natToStr y) 4 '0'
    ++ (padStart (natToStr m) 2 '0' ++ padStart (natToStr d) 2 '0')

/-- The 16-character encoding `YYYYMMDDTHHMMSSZ` of a UTC civil date-time. -/
def encodeICSDateTime (y m d h mi s : Nat) : List Char :=
  padStart (natToStr y) 4 '0'
    ++ (padStart (natToStr m) 2 '0'
    ++ (padStart (natToStr d) 2 '0'
    ++ ('T' :: (padStart (natToStr h) 2 '0'
    ++ (padStart (natToStr mi) 2 '0'
    ++ (padStart (natToStr s) 2 '0' ++ ['Z']))))))

theorem jsSubstring_first (x rest : List Char) :
    jsSubstring (x ++ rest) 0 x.length = x := by
  unfold jsSubstring
  rw [List.take_left, List.drop_zero]

theorem jsSubstring_mid (x y z : List Char) :
    jsSubstring (x ++ (y ++ z)) x.length (x.length + y.length) = y := by
  unfold jsSubstring
  rw [List.take_append y.length, List.take_left, List.drop_left]

theorem dropWhile_all_false {α : Type} (P : α → Bool) (s : List α)
    (h : ∀ c ∈ s, P c = false) : s.dropWhile P = s := by
  cases s with
  | nil => rfl
  | cons c t =>
    rw [List.dropWhile_cons, if_neg]
    rw [h c (List.mem_cons_self c t)]
    simp

theorem trimJS_eq_self (s : List Char) (h : ∀ c ∈ s, isJsWs c = false) :
    trimJS s = s := by
  unfold trimJS
  rw [dropWhile_all_false _ _ h, dropWhile_all_false, List.reverse_reverse]
  intro c hc
  exact h c (List.mem_reverse.1 hc)

theorem specDaysInMonth_le_31 (y m : Nat) : specDaysInMonth y m ≤ 31 := by
  unfold specDaysInMonth
  split <;> first | omega | (split_ifs <;> omega)

theorem orZeroStr_ne_nil (t : List Char) (h : t ≠ []) : orZeroStr t = t := by
  unfold orZeroStr
  rw [if_neg]
  intro hcon
  exact h (List.isEmpty_iff.1 hcon)

theorem padStart_ne_nil (v n : Nat) : padStart (natToStr v) n '0' ≠ [] := by
  unfold padStart
  intro hcon
  exact natToStr_ne_nil v (List.append_eq_nil.1 hcon).2

/-- C7 amended: for every real calendar date with a year at least 100, the
8-digit date parses to exactly midnight UTC of that civil date (the
independent count `specMidnightUtc`), under any local zone.  (Years 0..99
are excluded: the host date API shifts them by 1900, see the
counterexample.) -/
theorem parseICSDate_valid_date (z : LocalZone) (y m d : Nat)
    (hy : 100 ≤ y) (hy2 : y ≤ 9999) (hm : 1 ≤ m) (hm2 : m ≤ 12)
    (hd : 1 ≤ d) (hd2 : d ≤ specDaysInMonth y m) :
    parseICSDate z (encodeICSDateOnly y m d) = some (specMidnightUtc y m d) := by
  have hp10 : (10 : Nat) ^ 4 = 10000 := by norm_num
  have hp2 : (10 : Nat) ^ 2 = 100 := by norm_num
  have hA : (padStart (natToStr y) 4 '0').length = 4 :=
    padStart_length _ _ _ (natToStr_length_le y 4 (by omega) (by omega))
  have hB : (padStart (natToStr m) 2 '0').length = 2 :=
    padStart_length _ _ _ (natToStr_length_le m 2 (by omega) (by omega))
  have hdim := specDaysInMonth_le_31 y m
  have hC : (padStart (natToStr d) 2 '0').length = 2 :=
    padStart_length _ _ _ (natToStr_length_le d 2 (by omega) (by omega))
  have hdg : ∀ c ∈ encodeICSDateOnly y m d, c.isDigit = true := by
    intro c hc
    unfold encodeICSDateOnly at hc
    rcases List.mem_append.1 hc with hc | hc
    · exact padStart_zero_digits _ _ (natToStr_digits y) c hc
    rcases List.mem_append.1 hc with hc | hc
    · exact padStart_zero_digits _ _ (natToStr_digits m) c hc
    · exact padStart_zero_digits _ _ (natToStr_digits d) c hc
  have htrim : trimJS (encodeICSDateOnly y m d) = encodeICSDateOnly y m d :=
    trimJS_eq_self _ (fun c hc => digit_not_ws c (hdg c hc))
  have hlen : (encodeICSDateOnly y m d).length = 8 := by
    unfold encodeICSDateOnly
    simp [hA, hB, hC]
  have e1 : jsSubstring (encodeICSDateOnly y m d) 0 4 = padStart (natToStr y) 4 '0' := by
    have := jsSubstring_first (padStart (natToStr y) 4 '0')
      (padStart (natToStr m) 2 '0' ++ padStart (natToStr d) 2 '0')
    rw [hA] at this
    exact this
  have e2 : jsSubstring (encodeICSDateOnly y m d) 4 6 = padStart (natToStr m) 2 '0' := by
    have := jsSubstring_mid (padStart (natToStr y) 4 '0') (padStart (natToStr m) 2 '0')
      (padStart (natToStr d) 2 '0')
    rw [hA, hB] at this
    norm_num at this
    exact this
  have e3 : jsSubstring (encodeICSDateOnly y m d) 6 8 = padStart (natToStr d) 2 '0' := by
    have hmid := jsSubstring_mid
      (padStart (natToStr y) 4 '0' ++ padStart (natToStr m) 2 '0')
      (padStart (natToStr d) 2 '0') []
    rw [List.length_append, hA, hB, hC] at hmid
    unfold encodeICSDateOnly
    simpa using hmid
  simp only [parseICSDate, htrim]
  rw [if_pos ⟨hlen, List.all_eq_true.2 hdg⟩]
  rw [e1, e2, e3, jsParseInt_padStart_natToStr, jsParseInt_padStart_natToStr,
    jsParseInt_padStart_natToStr]
  have hadj : adjYear (y : Int) = (y : Int) := by
    unfold adjYear
    rw [if_neg]
    push_cast
    omega
  simp only [jsDateUTC, epochFromFieldsUTC, makeDay, hadj]
  have hdiv : ((m : Int) - 1) / 12 = 0 := by omega
  have hmod : ((m : Int) - 1) % 12 + 1 = (m : Int) := by omega
  rw [hdiv, hmod]
  have := daysFromCivil_eq_spec y m (d : Int) (by omega) hm hm2
  rw [show (y : Int) + 0 = (y : Int) from by omega, this]
  unfold specMidnightUtc specDaysSinceEpoch
  congr 1
  push_cast
  ring

set_option maxRecDepth 10000 in
/-- C7 counterexample: the valid 8-digit date `00990101` (year 99) is parsed
through `Date.UTC`, which maps years 0..99 to 1900+year, so the result is
midnight of 1999-01-01 rather than midnight of 0099-01-01. -/
theorem parseICSDate_year99_shifted :
    parseICSDate utcServer ("00990101".toList) = some 915148800000 ∧
    specMidnightUtc 99 1 1 ≠ 915148800000 := by
  decide

/-- C7 witness: `20250310` parses to midnight UTC of 2025-03-10. -/
theorem parseICSDate_valid_date_witness :
    (100 ≤ 2025 ∧ 2025 ≤ 9999 ∧ 1 ≤ 3 ∧ 3 ≤ 12 ∧ 1 ≤ 10 ∧
      10 ≤ specDaysInMonth 2025 3) ∧
    parseICSDate utcServer (encodeICSDateOnly 2025 3 10) =
      some (specMidnightUtc 2025 3 10) :=
  ⟨by decide,
    parseICSDate_valid_date utcServer 2025 3 10 (by decide) (by decide) (by decide)
      (by decide) (by decide) (by decide)⟩

/-- C8 amended: every well-formed 16-character compact date-time ending in
`Z` with a real date (year at least 100) and in-range time fields parses,
under any local zone, to exactly the UTC instant whose wall-clock fields
are the literal digits of the input — in particular the result does not
depend on the runtime zone `z`, and no timezone argument exists to pass.
(Years 0..99 are again shifted by 1900, see the counterexample.) -/
theorem parseICSDate_utc_datetime (z : LocalZone) (y m d h mi s : Nat)
    (hy : 100 ≤ y) (hy2 : y ≤ 9999) (hm : 1 ≤ m) (hm2 : m ≤ 12)
    (hd : 1 ≤ d) (hd2 : d ≤ specDaysInMonth y m)
    (hh : h ≤ 23) (hmi : mi ≤ 59) (hs : s ≤ 59) :
    parseICSDate z (encodeICSDateTime y m d h mi s) =
      some (specUtcInstant y m d h mi s) := by
  have hA : (padStart (natToStr y) 4 '0').length = 4 :=
    padStart_length _ _ _ (natToStr_length_le y 4 (by omega) (by nlinarith [pow_pos (show 0 < 10 by omega) 4]))
  have hB : (padStart (natToStr m) 2 '0').length = 2 :=
    padStart_length _ _ _ (natToStr_length_le m 2 (by omega) (by nlinarith))
  have hdim := specDaysInMonth_le_31 y m
  have hC : (padStart (natToStr d) 2 '0').length = 2 :=
    padStart_length _ _ _ (natToStr_length_le d 2 (by omega) (by nlinarith))
  have hH : (padStart (natToStr h) 2 '0').length = 2 :=
    padStart_length _ _ _ (natToStr_length_le h 2 (by omega) (by nlinarith))
  have hMi : (padStart (natToStr mi) 2 '0').length = 2 :=
    padStart_length _ _ _ (natToStr_length_le mi 2 (by omega) (by nlinarith))
  have hS : (padStart (natToStr s) 2 '0').length = 2 :=
    padStart_length _ _ _ (natToStr_length_le s 2 (by omega) (by nlinarith))
  have hcs : ∀ c ∈ encodeICSDateTime y m d h mi s,
      c.isDigit = true ∨ c = 'T' ∨ c = 'Z' := by
    intro c hc
    unfold encodeICSDateTime at hc
    rcases List.mem_append.1 hc with hc | hc
    · exact Or.inl (padStart_zero_digits _ _ (natToStr_digits y) c hc)
    rcases List.mem_append.1 hc with hc | hc
    · exact Or.inl (padStart_zero_digits _ _ (natToStr_digits m) c hc)
    rcases List.mem_append.1 hc with hc | hc
    · exact Or.inl (padStart_zero_digits _ _ (natToStr_digits d) c hc)
    rcases List.mem_cons.1 hc with hc | hc
    · exact Or.inr (Or.inl hc)
    rcases List.mem_append.1 hc with hc | hc
    · exact Or.inl (padStart_zero_digits _ _ (natToStr_digits h) c hc)
    rcases List.mem_append.1 hc with hc | hc
    · exact Or.inl (padStart_zero_digits _ _ (natToStr_digits mi) c hc)
    rcases List.mem_append.1 hc with hc | hc
    · exact Or.inl (padStart_zero_digits _ _ (natToStr_digits s) c hc)
    · exact Or.inr (Or.inr (List.mem_singleton.1 hc))
  have htrim : trimJS (encodeICSDateTime y m d h mi s) = encodeICSDateTime y m d h mi s := by
    apply trimJS_eq_self
    intro c hc
    rcases hcs c hc with hc1 | hc1 | hc1
    · exact digit_not_ws c hc1
    · rw [hc1]; rfl
    · rw [hc1]; rfl
  have hlen16 : (encodeICSDateTime y m d h mi s).length = 16 := by
    unfold encodeICSDateTime
    simp [hA, hB, hC, hH, hMi, hS]
  have hmemT : 'T' ∈ encodeICSDateTime y m d h mi s := by
    unfold encodeICSDateTime
    refine List.mem_append.2 (Or.inr ?_)
    refine List.mem_append.2 (Or.inr ?_)
    refine List.mem_append.2 (Or.inr ?_)
    exact List.mem_cons_self _ _
  have hZ : endsWith (encodeICSDateTime y m d h mi s) 'Z' = true := by
    have hconcat : encodeICSDateTime y m d h mi s =
        (padStart (natToStr y) 4 '0'
          ++ (padStart (natToStr m) 2 '0'
          ++ (padStart (natToStr d) 2 '0'
          ++ ('T' :: (padStart (natToStr h) 2 '0'
          ++ (padStart (natToStr mi) 2 '0' ++ padStart (natToStr s) 2 '0')))))) ++ ['Z'] := by
      unfold encodeICSDateTime
      simp [List.append_assoc]
    unfold endsWith
    rw [hconcat, List.getLast?_concat]
    rfl
  have e1 : jsSubstring (encodeICSDateTime y m d h mi s) 0 4
      = padStart (natToStr y) 4 '0' := by
    have hmid := jsSubstring_first (padStart (natToStr y) 4 '0')
      (padStart (natToStr m) 2 '0'
        ++ (padStart (natToStr d) 2 '0'
        ++ ('T' :: (padStart (natToStr h) 2 '0'
        ++ (padStart (natToStr mi) 2 '0'
        ++ (padStart (natToStr s) 2 '0' ++ ['Z']))))))
    rw [hA] at hmid
    exact hmid
  have e2 : jsSubstring (encodeICSDateTime y m d h mi s) 4 6
      = padStart (natToStr m) 2 '0' := by
    have hmid := jsSubstring_mid (padStart (natToStr y) 4 '0')
      (padStart (natToStr m) 2 '0')
      (padStart (natToStr d) 2 '0'
        ++ ('T' :: (padStart (natToStr h) 2 '0'
        ++ (padStart (natToStr mi) 2 '0'
        ++ (padStart (natToStr s) 2 '0' ++ ['Z'])))))
    rw [hA, hB] at hmid
    unfold encodeICSDateTime
    simpa using hmid
  have e3 : jsSubstring (encodeICSDateTime y m d h mi s) 6 8
      = padStart (natToStr d) 2 '0' := by
    have hmid := jsSubstring_mid
      (padStart (natToStr y) 4 '0' ++ padStart (natToStr m) 2 '0')
      (padStart (natToStr d) 2 '0')
      ('T' :: (padStart (natToStr h) 2 '0'
        ++ (padStart (natToStr mi) 2 '0'
        ++ (padStart (natToStr s) 2 '0' ++ ['Z']))))
    rw [List.length_append, hA, hB, hC] at hmid
    unfold encodeICSDateTime
    simpa using hmid
  have e4 : jsSubstring (encodeICSDateTime y m d h mi s) 9 11
      = padStart (natToStr h) 2 '0' := by
    have hmid := jsSubstring_mid
      (((padStart (natToStr y) 4 '0' ++ padStart (natToStr m) 2 '0')
        ++ padStart (natToStr d) 2 '0') ++ ['T'])
      (padStart (natToStr h) 2 '0')
      (padStart (natToStr mi) 2 '0' ++ (padStart (natToStr s) 2 '0' ++ ['Z']))
    rw [List.length_append, List.length_append, List.length_append,
      hA, hB, hC, hH] at hmid
    unfold encodeICSDateTime
    simpa using hmid
  have e5 : jsSubstring (encodeICSDateTime y m d h mi s) 11 13
      = padStart (natToStr mi) 2 '0' := by
    have hmid := jsSubstring_mid
      ((((padStart (natToStr y) 4 '0' ++ padStart (natToStr m) 2 '0')
        ++ padStart (natToStr d) 2 '0') ++ ['T']) ++ padStart (natToStr h) 2 '0')
      (padStart (natToStr mi) 2 '0')
      (padStart (natToStr s) 2 '0' ++ ['Z'])
    rw [List.length_append, List.length_append, List.length_append, List.length_append,
      hA, hB, hC, hH, hMi] at hmid
    unfold encodeICSDateTime
    simpa using hmid
  have e6 : jsSubstring (encodeICSDateTime y m d h mi s) 13 15
      = padStart (natToStr s) 2 '0' := by
    have hmid := jsSubstring_mid
      (((((padStart (natToStr y) 4 '0' ++ padStart (natToStr m) 2 '0')
        ++ padStart (natToStr d) 2 '0') ++ ['T']) ++ padStart (natToStr h) 2 '0')
        ++ padStart (natToStr mi) 2 '0')
      (padStart (natToStr s) 2 '0')
      ['Z']
    rw [List.length_append, List.length_append, List.length_append, List.length_append,
      List.length_append, hA, hB, hC, hH, hMi, hS] at hmid
    unfold encodeICSDateTime
    simpa using hmid
  simp only [parseICSDate, htrim]
  rw [if_neg (fun hcon => by rw [hlen16] at hcon; exact absurd hcon.1 (by norm_num))]
  rw [if_pos ⟨by rw [hlen16]; norm_num, List.elem_iff.mpr hmemT⟩]
  rw [e1, e2, e3, e4, e5, e6,
    orZeroStr_ne_nil _ (padStart_ne_nil h 2), orZeroStr_ne_nil _ (padStart_ne_nil mi 2),
    orZeroStr_ne_nil _ (padStart_ne_nil s 2),
    jsParseInt_padStart_natToStr, jsParseInt_padStart_natToStr,
    jsParseInt_padStart_natToStr, jsParseInt_padStart_natToStr,
    jsParseInt_padStart_natToStr, jsParseInt_padStart_natToStr]
  rw [hZ]
  simp only [Bool.true_or, if_true, ite_true]
  have hadj : adjYear (y : Int) = (y : Int) := by
    unfold adjYear
    rw [if_neg]
    push_cast
    omega
  simp only [jsDateUTC, epochFromFieldsUTC, makeDay, hadj]
  have hdiv : ((m : Int) - 1) / 12 = 0 := by omega
  have hmod : ((m : Int) - 1) % 12 + 1 = (m : Int) := by omega
  rw [hdiv, hmod]
  have hdays := daysFromCivil_eq_spec y m (d : Int) (by omega) hm hm2
  rw [show (y : Int) + 0 = (y : Int) from by omega, hdays]
  unfold specUtcInstant specMidnightUtc specDaysSinceEpoch
  congr 1
  push_cast
  ring

set_option maxRecDepth 10000 in
/-- C8 counterexample: the compact UTC date-time `00990101T120000Z` has
literal year digits 0099, but the parsed instant is 1999-01-01T12:00:00Z
(the host date API shifts years 0..99 by 1900), so its UTC fields do not
equal the literal digits. -/
theorem parseICSDate_utc_year99_shifted :
    parseICSDate utcServer ("00990101T120000Z".toList) = some 915192000000 ∧
    specUtcInstant 99 1 1 12 0 0 ≠ 915192000000 := by
  decide

/-- C8 witness: `20250310T143000Z` under an arbitrary non-UTC zone. -/
theorem parseICSDate_utc_datetime_witness :
    (100 ≤ 2025 ∧ 10 ≤ specDaysInMonth 2025 3 ∧ 14 ≤ 23 ∧ 30 ≤ 59) ∧
    parseICSDate (fun _ _ _ _ _ _ => 12345) (encodeICSDateTime 2025 3 10 14 30 0) =
      some (specUtcInstant 2025 3 10 14 30 0) :=
  ⟨by decide,
    parseICSDate_utc_datetime (fun _ _ _ _ _ _ => 12345) 2025 3 10 14 30 0
      (by decide) (by decide) (by decide) (by decide) (by decide) (by decide)
      (by decide) (by decide) (by decide)⟩
